import Mathlib

/-!
Shallow embedding of the multi-root client lifecycle manager of the
vscode-standard-ruby extension (src/clientManager.ts, with the collaborator
wiring of src/extension.ts), together with proofs of the specification
claims about it.

Modelling conventions:
* JavaScript `Map`s keyed by folder key are association lists
  (`List (String × α)`) with `Map.set`/`Map.get`/`Map.delete` embedded as
  `insertA`/`lookupA`/`eraseA`, preserving insertion order.
* The JavaScript `Set` of pending folder keys is a duplicate-free
  `List String` (`addKey`/`removeKey`).
* Map instances (the per-folder diagnostic caches) carry an allocation
  identifier `id` so that instance identity (`new Map()` versus an existing
  reference) is expressible; a fresh allocation takes the manager's
  `nextCacheId` counter.
* Side effects on collaborators (logging, watcher disposal, error
  notification, status refresh, protocol notifications) are recorded in an
  event list `List Ev`.
* Collaborator outcomes (eligibility check, client factory, client start,
  post-start notification sends) are inputs (`StartEnv`); a rejected promise
  is an `err` outcome.  `startForFolder` catches every failure internally,
  so its embedding is a total function; `stopForFolder` can propagate a
  `client.stop()` rejection, so it returns an `Outcome`, with the state
  component describing the manager state at the point the error escapes.
-/

/-- Association-list lookup, embedding JavaScript `Map.get` (first match;
maps built by `insertA`/`eraseA` have at most one entry per key). -/
def lookupA {α : Type} : List (String × α) → String → Option α
  | [], _ => none
  | (k, v) :: rest, key => if k = key then some v else lookupA rest key

/-- Association-list update, embedding JavaScript `Map.set`: replaces the
value at an existing key in place, otherwise appends the new entry. -/
def insertA {α : Type} (key : String) (v : α) : List (String × α) → List (String × α)
  | [] => [(key, v)]
  | (k, w) :: rest => if k = key then (key, v) :: rest else (k, w) :: insertA key v rest

/-- Association-list removal, embedding JavaScript `Map.delete`. -/
def eraseA {α : Type} (key : String) : List (String × α) → List (String × α)
  | [] => []
  | (k, w) :: rest => if k = key then rest else (k, w) :: eraseA key rest

/-- Keys of an association list. -/
def keysOf {α : Type} (l : List (String × α)) : List String := l.map Prod.fst

/-- Set insertion, embedding JavaScript `Set.add`. -/
def addKey (k : String) (l : List String) : List String :=
  if k ∈ l then l else k :: l

/-- Set removal, embedding JavaScript `Set.delete`. -/
def removeKey (k : String) (l : List String) : List String :=
  l.filter (fun x => x != k)

/-- A folder URI, as handed to the manager by the editor. -/
structure Uri where
  scheme : String
  path : String
deriving Repr, DecidableEq

/-- Canonicalizes one directory-separator character. -/
def sepCanon (c : Char) : Char := if c = '\\' then '/' else c

/-- Modelled from the spec: the editor's URI type is an external collaborator
(the `vscode` API, not part of this repository); per the spec's folder-key
normalization requirement, its string rendering is canonical, with all
directory separators rendered as forward slashes regardless of host
platform. -/
def Uri.toStr (u : Uri) : String :=
  u.scheme ++ ("://") ++ String.mk (u.path.data.map sepCanon)

/-- A workspace folder (`vscode.WorkspaceFolder`): a URI plus display name. -/
structure WorkspaceFolder where
  uri : Uri
  name : String
deriving Repr, DecidableEq

/-- A text document: its URI string (`document.uri.toString()`) and
language identifier. -/
structure TextDocument where
  uriStr : String
  languageId : String
deriving Repr, DecidableEq

/-- A per-folder diagnostic cache: a `Map` instance identified by its
allocation id, holding the set of document keys currently present.
(The diagnostic payloads themselves are irrelevant to the claims.) -/
structure DiagCache where
  id : Nat
  docs : List String
deriving Repr, DecidableEq

/-- The private mutable state of `ClientManager` (clientManager.ts lines
31-41): clients, diagnostic caches and watcher batches keyed by folder key,
the pending-start key set, plus the allocation counter for cache
instances. -/
structure MState where
  clients : List (String × Nat)
  caches : List (String × DiagCache)
  watchers : List (String × List Nat)
  pending : List String
  nextCacheId : Nat
deriving Repr, DecidableEq

/-- The manager state at construction: every map empty. -/
def initState : MState :=
  { clients := [], caches := [], watchers := [], pending := [], nextCacheId := 0 }

/-- Observable collaborator effects. -/
inductive Ev where
  | log (msg : String)
  | dispose (d : Nat)
  | onError (msg : String) (folderName : String)
  | statusUpdate
  | sendOpen (clientId : Nat) (docKey : String)
  | clientStopCall (clientId : Nat)
deriving Repr, DecidableEq

/-- Whether an operation completed normally or threw. -/
inductive Outcome where
  | ok
  | err
deriving Repr, DecidableEq

/-- `getFolderKey` (clientManager.ts line 238): `folder.uri.toString()`. -/
def getFolderKey (f : WorkspaceFolder) : String := Uri.toStr f.uri

/-- `normalizePathForGlob` (clientManager.ts line 290): replaces every
backslash with a forward slash. -/
def normalizePathForGlob (fsPath : String) : String :=
  String.mk (fsPath.data.map (fun c => if c = '\\' then '/' else c))

/-- Log line of the ineligible-folder path (clientManager.ts line 128). -/
def skipFolderMsg (f : WorkspaceFolder) : String :=
  ("Skipping workspace folder ") ++ f.name ++ (" - extension disabled or not applicable")

/-- Log line of the successful-start path (clientManager.ts line 137). -/
def startedMsg (f : WorkspaceFolder) : String :=
  ("Language server started for ") ++ f.name

/-- Log line of the failure path (clientManager.ts line 143). -/
def failStartMsg (f : WorkspaceFolder) : String :=
  ("Failed to start language server for ") ++ f.name

/-- Error-notification message of the failure path (clientManager.ts
line 144). -/
def onErrorMsg (f : WorkspaceFolder) : String :=
  ("Failed to start Standard Ruby Language Server for ") ++ f.name

/-- Log line of `stopForFolder` (clientManager.ts line 158). -/
def stoppingMsg (f : WorkspaceFolder) : String :=
  ("Stopping language server for ") ++ f.name

/-- `getDiagnosticCacheForFolder` (clientManager.ts lines 91-99): get-or-create
of the folder's diagnostic cache; a miss allocates a fresh empty `Map` and
stores it. -/
def getDiagnosticCacheForFolder (f : WorkspaceFolder) (s : MState) : MState × DiagCache :=
  let key := getFolderKey f
  match lookupA s.caches key with
  | some cache => (s, cache)
  | none =>
    let cache : DiagCache := { id := s.nextCacheId, docs := [] }
    ({ s with caches := insertA key cache s.caches, nextCacheId := s.nextCacheId + 1 }, cache)

/-- `registerWatchers` (clientManager.ts lines 107-109): associates the batch
with the folder key, replacing whatever batch was there. -/
def registerWatchers (f : WorkspaceFolder) (watcherDisposables : List Nat) (s : MState) : MState :=
  { s with watchers := insertA (getFolderKey f) watcherDisposables s.watchers }

/-- `cleanupWatchers` (clientManager.ts lines 269-272): disposes each member
of the batch registered for the key, then removes the entry. -/
def cleanupWatchersSt (key : String) (s : MState) : MState × List Ev :=
  match lookupA s.watchers key with
  | some batch => ({ s with watchers := eraseA key s.watchers }, batch.map Ev.dispose)
  | none => ({ s with watchers := eraseA key s.watchers }, [])

/-- Outcome of the `shouldEnableForFolder` collaborator call. -/
inductive EligRes where
  | yes
  | no
  | err
deriving Repr, DecidableEq

/-- Outcome of the `createClient` collaborator call: a client handle, the
explicit `null` ("nothing to run"), or a thrown failure. -/
inductive FactoryRes where
  | ok (cid : Nat)
  | null
  | err
deriving Repr, DecidableEq

/-- Collaborator outcomes consumed by one `startForFolder` attempt, plus the
documents open in the editor when `syncOpenDocuments` runs. -/
structure StartEnv where
  elig : EligRes
  factory : FactoryRes
  startOk : Bool
  syncOk : Bool
  openDocs : List TextDocument
deriving Repr, DecidableEq

/-- `syncOpenDocuments` (clientManager.ts lines 255-267): sends an open
notification for every open document of a supported language that belongs
to the starting folder. -/
def syncOpenDocuments (supported : String → Bool)
    (ws : TextDocument → Option WorkspaceFolder)
    (cid : Nat) (key : String) : List TextDocument → List Ev
  | [] => []
  | d :: rest =>
    if supported d.languageId then
      match ws d with
      | some df =>
        if getFolderKey df = key then
          Ev.sendOpen cid d.uriStr :: syncOpenDocuments supported ws cid key rest
        else syncOpenDocuments supported ws cid key rest
      | none => syncOpenDocuments supported ws cid key rest
    else syncOpenDocuments supported ws cid key rest

/-- The catch-plus-finally path of `startForFolder` (clientManager.ts lines
139-147): delete any partial client entry, dispose and forget the folder's
watcher batch, log, notify the error collaborator, and clear the pending
marker. -/
def startFail (f : WorkspaceFolder) (s : MState) : MState × List Ev :=
  let key := getFolderKey f
  let s1 : MState := { s with clients := eraseA key s.clients }
  let r := cleanupWatchersSt key s1
  ({ r.1 with pending := removeKey key r.1.pending },
    r.2 ++ [Ev.log (failStartMsg f), Ev.onError (onErrorMsg f) f.name])

/-- `startForFolder` (clientManager.ts lines 114-148), run to completion with
the given collaborator outcomes.  Every failure inside the `try` is caught
(the function is total); the `finally` clearing of the pending marker is
part of every path.  A failing post-start notification send is modelled as
failing before any send. -/
def startForFolder (supported : String → Bool)
    (ws : TextDocument → Option WorkspaceFolder)
    (env : StartEnv) (f : WorkspaceFolder) (s : MState) : MState × List Ev :=
  let key := getFolderKey f
  if (lookupA s.clients key).isSome then (s, [])
  else if key ∈ s.pending then (s, [])
  else
    let s1 : MState := { s with pending := addKey key s.pending }
    match env.elig with
    | EligRes.err => startFail f s1
    | EligRes.no => ({ s1 with pending := removeKey key s1.pending }, [Ev.log (skipFolderMsg f)])
    | EligRes.yes =>
      match env.factory with
      | FactoryRes.err => startFail f s1
      | FactoryRes.null => ({ s1 with pending := removeKey key s1.pending }, [])
      | FactoryRes.ok cid =>
        let s2 : MState := { s1 with clients := insertA key cid s1.clients }
        if env.startOk then
          let s3 : MState := { s2 with
            caches := insertA key { id := s2.nextCacheId, docs := [] } s2.caches,
            nextCacheId := s2.nextCacheId + 1 }
          if env.syncOk then
            ({ s3 with pending := removeKey key s3.pending },
              syncOpenDocuments supported ws cid key env.openDocs
                ++ [Ev.statusUpdate, Ev.log (startedMsg f)])
          else startFail f s3
        else startFail f s2

/-- `stopForFolder` (clientManager.ts lines 153-163).  `stopFails` is whether
the `client.stop()` promise rejects; a rejection propagates out of the
method before any registry teardown has happened. -/
def stopForFolder (stopFails : Bool) (f : WorkspaceFolder) (s : MState) :
    Outcome × MState × List Ev :=
  let key := getFolderKey f
  match lookupA s.clients key with
  | none => (Outcome.ok, s, [])
  | some cid =>
    if stopFails then (Outcome.err, s, [Ev.log (stoppingMsg f), Ev.clientStopCall cid])
    else
      let s1 : MState := { s with clients := eraseA key s.clients, caches := eraseA key s.caches }
      let r := cleanupWatchersSt key s1
      (Outcome.ok, r.1, [Ev.log (stoppingMsg f), Ev.clientStopCall cid] ++ r.2)

/-- `startAll` (clientManager.ts lines 168-172) over an explicit folder list
(the editor's `workspace.workspaceFolders`), each folder started with its
own collaborator outcomes. -/
def startAll (supported : String → Bool) (ws : TextDocument → Option WorkspaceFolder)
    (envs : WorkspaceFolder → StartEnv) :
    List WorkspaceFolder → MState → MState × List Ev
  | [], s => (s, [])
  | f :: rest, s =>
    let r1 := startForFolder supported ws (envs f) f s
    let r2 := startAll supported ws envs rest r1.1
    (r2.1, r1.2 ++ r2.2)

/-- The removed-folder loop of the workspace-folder listener
(clientManager.ts lines 201-203): stops each removed folder in order; a
rejection from one stop propagates, abandoning the rest of the loop. -/
def processRemoved (stopFails : WorkspaceFolder → Bool) :
    List WorkspaceFolder → MState → Outcome × MState × List Ev
  | [], s => (Outcome.ok, s, [])
  | f :: rest, s =>
    match stopForFolder (stopFails f) f s with
    | (Outcome.err, s1, e1) => (Outcome.err, s1, e1)
    | (Outcome.ok, s1, e1) =>
      let r := processRemoved stopFails rest s1
      (r.1, r.2.1, e1 ++ r.2.2)

/-- The event handler created by `createWorkspaceFolderListener`
(clientManager.ts lines 199-208): stop every removed folder, then start
every added folder. -/
def handleFolderChange (supported : String → Bool)
    (ws : TextDocument → Option WorkspaceFolder)
    (stopFails : WorkspaceFolder → Bool) (envs : WorkspaceFolder → StartEnv)
    (removed added : List WorkspaceFolder) (s : MState) : Outcome × MState × List Ev :=
  match processRemoved stopFails removed s with
  | (Outcome.err, s1, e1) => (Outcome.err, s1, e1)
  | (Outcome.ok, s1, e1) =>
    let r := startAll supported ws envs added s1
    (Outcome.ok, r.1, e1 ++ r.2)

/-- The client-stopping loop of `stopAll` (clientManager.ts lines 179-181):
stops each live client in map order; a rejection propagates. -/
def stopAllLoop (fails : Nat → Bool) : List (String × Nat) → Outcome × List Ev
  | [] => (Outcome.ok, [])
  | (_, cid) :: rest =>
    if fails cid then (Outcome.err, [Ev.clientStopCall cid])
    else
      let r := stopAllLoop fails rest
      (r.1, Ev.clientStopCall cid :: r.2)

/-- `cleanupAllWatchers` (clientManager.ts lines 274-279), dispose events
only (the map is cleared by the caller). -/
def disposeAllWatchers : List (String × List Nat) → List Ev
  | [] => []
  | (_, batch) :: rest => batch.map Ev.dispose ++ disposeAllWatchers rest

/-- `stopAll` (clientManager.ts lines 177-185): stop every client, then clear
the client and cache maps and dispose every watcher batch.  A stop rejection
propagates before any map is cleared. -/
def stopAll (fails : Nat → Bool) (s : MState) : Outcome × MState × List Ev :=
  match stopAllLoop fails s.clients with
  | (Outcome.err, evs) => (Outcome.err, s, Ev.log ("Stopping all language servers...") :: evs)
  | (Outcome.ok, evs) =>
    (Outcome.ok, { s with clients := [], caches := [], watchers := [] },
      Ev.log ("Stopping all language servers...") :: evs ++ disposeAllWatchers s.watchers)

/-- `notifyDocumentOpenIfNeeded` (clientManager.ts lines 217-235). -/
def notifyDocumentOpenIfNeeded (supported : String → Bool)
    (ws : TextDocument → Option WorkspaceFolder)
    (doc : TextDocument) (s : MState) : MState × List Ev :=
  if supported doc.languageId then
    match ws doc with
    | none => (s, [])
    | some folder =>
      match lookupA s.clients (getFolderKey folder) with
      | none => (s, [])
      | some cid =>
        let r := getDiagnosticCacheForFolder folder s
        if doc.uriStr ∈ r.2.docs then (r.1, [])
        else (r.1, [Ev.sendOpen cid doc.uriStr])
  else (s, [])

/-- The client factory wired in by the extension (extension.ts
`createLanguageClient` via `buildLanguageClientOptions`, lines 278-335):
during client creation it registers the folder's file-system watchers and
captures the folder's diagnostic cache for the client's
`handleDiagnostics` middleware.  Returns the manager state after the
factory's re-entrant calls together with the captured cache instance. -/
def extensionFactory (watcherIds : List Nat) (f : WorkspaceFolder) (s : MState) :
    MState × DiagCache :=
  getDiagnosticCacheForFolder f (registerWatchers f watcherIds s)

/-- The success path of `startForFolder` specialized to the extension's
factory: guards pass, `shouldEnableForFolder` resolves true, the factory
(`extensionFactory`) returns client `cid`, `client.start()` and the
post-start document sync succeed.  Returns the final manager state and the
cache instance captured by the factory for the middleware (or `none` when a
guard made the call an immediate no-op). -/
def startForFolderExt (watcherIds : List Nat) (cid : Nat) (f : WorkspaceFolder)
    (s : MState) : MState × Option DiagCache :=
  let key := getFolderKey f
  if (lookupA s.clients key).isSome then (s, none)
  else if key ∈ s.pending then (s, none)
  else
    let s1 : MState := { s with pending := addKey key s.pending }
    let r := extensionFactory watcherIds f s1
    let s3 : MState := { r.1 with clients := insertA key cid r.1.clients }
    let s4 : MState := { s3 with
      caches := insertA key { id := s3.nextCacheId, docs := [] } s3.caches,
      nextCacheId := s3.nextCacheId + 1 }
    ({ s4 with pending := removeKey key s4.pending }, some r.2)

/-- One externally triggered manager operation, for reasoning about
arbitrary call sequences. -/
inductive Op where
  | registerOp (f : WorkspaceFolder) (batch : List Nat)
  | startOp (f : WorkspaceFolder) (env : StartEnv)
  | stopOp (f : WorkspaceFolder) (stopFails : Bool)
  | stopAllOp (fails : Nat → Bool)

/-- Applies one operation to the manager state, yielding the new state and
the collaborator events it emitted. -/
def applyOp (supported : String → Bool) (ws : TextDocument → Option WorkspaceFolder) :
    Op → MState → MState × List Ev
  | Op.registerOp f batch, s => (registerWatchers f batch s, [])
  | Op.startOp f env, s => startForFolder supported ws env f s
  | Op.stopOp f stopFails, s =>
    let r := stopForFolder stopFails f s
    (r.2.1, r.2.2)
  | Op.stopAllOp fails, s =>
    let r := stopAll fails s
    (r.2.1, r.2.2)

/-- Runs a sequence of operations, accumulating events. -/
def runOps (supported : String → Bool) (ws : TextDocument → Option WorkspaceFolder) :
    List Op → MState → MState × List Ev
  | [], s => (s, [])
  | op :: rest, s =>
    let r1 := applyOp supported ws op s
    let r2 := runOps supported ws rest r1.1
    (r2.1, r1.2 ++ r2.2)

/-- All watcher-disposable identifiers passed to `registerWatchers` calls of
an operation sequence. -/
def opsRegisteredIds : List Op → List Nat
  | [] => []
  | Op.registerOp _ batch :: rest => batch ++ opsRegisteredIds rest
  | _ :: rest => opsRegisteredIds rest

/-- All watcher-disposable identifiers held in the manager's watcher map. -/
def watcherIds : List (String × List Nat) → List Nat
  | [] => []
  | (_, batch) :: rest => batch ++ watcherIds rest

/-!  The interleaving machine for `startForFolder`.

The extension host runs one cooperative task stream: a `startForFolder` call
executes synchronously from entry up to its first `await`, and thereafter
its continuations interleave with other calls only at `await` boundaries
(clientManager.ts lines 114-148; spec section 5).  Each in-flight call is a
task whose `Phase` names the suspension point it is parked at; a scheduler
action (`Act`) either runs a call's synchronous prefix (`enter`) or resolves
the awaited collaborator promise of one task, executing the following
synchronous segment. -/

/-- Suspension point of one `startForFolder` call. -/
inductive Phase where
  | notStarted
  | awaitElig
  | awaitFactory
  | awaitStart
  | awaitAfter
  | awaitErr
  | done
deriving Repr, DecidableEq

/-- One `startForFolder` call in flight: the folder it was called with, the
suspension point it is parked at, and whether it has invoked the client
factory. -/
structure TaskT where
  folder : WorkspaceFolder
  phase : Phase
  invokedFactory : Bool
deriving Repr, DecidableEq

/-- Folder key of a task. -/
def keyOfT (t : TaskT) : String := getFolderKey t.folder

/-- The whole system: the in-flight calls, the shared manager state, the log
of client-factory invocations (by folder key), and the ghost log of keys for
which some attempt has finished (reached its `finally`). -/
structure Sys where
  tasks : List TaskT
  st : MState
  factoryCalls : List String
  finished : List String
deriving Repr, DecidableEq

/-- Scheduler action: run a call's synchronous prefix, or resolve the
collaborator promise one task is awaiting. -/
inductive Act where
  | enter (i : Nat)
  | elig (i : Nat) (r : EligRes)
  | factory (i : Nat) (r : FactoryRes)
  | started (i : Nat) (ok : Bool)
  | synced (i : Nat) (ok : Bool)
  | errored (i : Nat)
deriving Repr, DecidableEq

/-- Replaces task `i`. -/
def setTask (sys : Sys) (i : Nat) (t : TaskT) : Sys :=
  { sys with tasks := sys.tasks.set i t }

/-- An attempt reaches its `finally` (clientManager.ts lines 145-147): the
pending marker is cleared unconditionally and the call returns. -/
def finishStep (sys : Sys) (i : Nat) (t : TaskT) : Sys :=
  { sys with
    tasks := sys.tasks.set i { t with phase := Phase.done },
    st := { sys.st with pending := removeKey (keyOfT t) sys.st.pending },
    finished := addKey (keyOfT t) sys.finished }

/-- The synchronous part of the catch block (clientManager.ts lines
139-143): remove any partial client entry, dispose and forget the watcher
batch, then suspend on the `onError` collaborator. -/
def catchStep (sys : Sys) (i : Nat) (t : TaskT) : Sys :=
  { sys with
    tasks := sys.tasks.set i { t with phase := Phase.awaitErr },
    st := { sys.st with
      clients := eraseA (keyOfT t) sys.st.clients,
      watchers := eraseA (keyOfT t) sys.st.watchers } }

/-- One scheduler action.  An action naming a missing task or a task not
parked at the corresponding suspension point changes nothing. -/
def step (a : Act) (sys : Sys) : Sys :=
  match a with
  | Act.enter i =>
    match sys.tasks.get? i with
    | none => sys
    | some t =>
      match t.phase with
      | Phase.notStarted =>
        if (lookupA sys.st.clients (keyOfT t)).isSome then
          setTask sys i { t with phase := Phase.done }
        else if keyOfT t ∈ sys.st.pending then
          setTask sys i { t with phase := Phase.done }
        else
          { sys with
            tasks := sys.tasks.set i { t with phase := Phase.awaitElig },
            st := { sys.st with pending := addKey (keyOfT t) sys.st.pending } }
      | _ => sys
  | Act.elig i r =>
    match sys.tasks.get? i with
    | none => sys
    | some t =>
      match t.phase with
      | Phase.awaitElig =>
        match r with
        | EligRes.yes =>
          { sys with
            tasks := sys.tasks.set i { t with phase := Phase.awaitFactory, invokedFactory := true },
            factoryCalls := sys.factoryCalls ++ [keyOfT t] }
        | EligRes.no => finishStep sys i t
        | EligRes.err => catchStep sys i t
      | _ => sys
  | Act.factory i r =>
    match sys.tasks.get? i with
    | none => sys
    | some t =>
      match t.phase with
      | Phase.awaitFactory =>
        match r with
        | FactoryRes.ok cid =>
          { sys with
            tasks := sys.tasks.set i { t with phase := Phase.awaitStart },
            st := { sys.st with clients := insertA (keyOfT t) cid sys.st.clients } }
        | FactoryRes.null => finishStep sys i t
        | FactoryRes.err => catchStep sys i t
      | _ => sys
  | Act.started i ok =>
    match sys.tasks.get? i with
    | none => sys
    | some t =>
      match t.phase with
      | Phase.awaitStart =>
        if ok then
          { sys with
            tasks := sys.tasks.set i { t with phase := Phase.awaitAfter },
            st := { sys.st with
              caches := insertA (keyOfT t) { id := sys.st.nextCacheId, docs := [] } sys.st.caches,
              nextCacheId := sys.st.nextCacheId + 1 } }
        else catchStep sys i t
      | _ => sys
  | Act.synced i ok =>
    match sys.tasks.get? i with
    | none => sys
    | some t =>
      match t.phase with
      | Phase.awaitAfter =>
        if ok then finishStep sys i t else catchStep sys i t
      | _ => sys
  | Act.errored i =>
    match sys.tasks.get? i with
    | none => sys
    | some t =>
      match t.phase with
      | Phase.awaitErr => finishStep sys i t
      | _ => sys

/-- Runs a schedule. -/
def runActs : List Act → Sys → Sys
  | [], sys => sys
  | a :: rest, sys => runActs rest (step a sys)

/-- A fresh batch of `startForFolder` calls, none yet run. -/
def initTasks (folders : List WorkspaceFolder) : List TaskT :=
  folders.map (fun f => { folder := f, phase := Phase.notStarted, invokedFactory := false })

/-- The system at the moment a batch of `startForFolder` calls has been
issued against manager state `s0`. -/
def initSys (folders : List WorkspaceFolder) (s0 : MState) : Sys :=
  { tasks := initTasks folders, st := s0, factoryCalls := [], finished := [] }

/-- Whether an action is the entry of a call for folder key `k`. -/
def isEnterFor (sys : Sys) (a : Act) (k : String) : Bool :=
  match a with
  | Act.enter i =>
    match sys.tasks.get? i with
    | some t => keyOfT t == k
    | none => false
  | _ => false

/-- The schedule keeps the calls for key `k` concurrent: no call for `k` is
entered after some attempt for `k` has already finished.  (A call entered
later would be a sequential retry, which the code deliberately allows to
invoke the factory again.) -/
def concOK (k : String) : Sys → List Act → Bool
  | _, [] => true
  | sys, a :: rest =>
    (if isEnterFor sys a k then decide (k ∉ sys.finished) else true)
      && concOK k (step a sys) rest

/-- Whether a phase is between the race guards and the `finally` (the task
holds the pending marker). -/
def isActiveP : Phase → Bool
  | Phase.notStarted => false
  | Phase.done => false
  | _ => true

/-- Number of in-flight attempts for key `k` that are past the guards and
not yet finished. -/
def activeCnt (sys : Sys) (k : String) : Nat :=
  sys.tasks.countP (fun t => keyOfT t == k && isActiveP t.phase)

/-- Number of tasks for key `k` that have invoked the client factory. -/
def facCnt (sys : Sys) (k : String) : Nat :=
  sys.tasks.countP (fun t => keyOfT t == k && t.invokedFactory)

/-- Number of client-factory invocations recorded for key `k`. -/
def callsCnt (sys : Sys) (k : String) : Nat :=
  sys.factoryCalls.count k

/-- Number of live client entries for key `k`. -/
def clientCnt (sys : Sys) (k : String) : Nat :=
  sys.st.clients.countP (fun p => p.1 == k)

/-- A location as a separator-free segment list, with an explicit separator
character joined between segments: the platform-specific textual form of one
path. -/
def joinSep (sep : Char) : List String → String
  | [] => { data := [] }
  | [s] => s
  | s :: rest => { data := s.data ++ sep :: (joinSep sep rest).data }

/-- Invariant of the interleaving machine for one folder key, maintained by
every schedule in which the calls for that key are concurrent
(see `concOK`). -/
structure SysInv (k : String) (sys : Sys) : Prop where
  callsEq : callsCnt sys k = facCnt sys k
  nodupClients : (keysOf sys.st.clients).Nodup
  activeLe : activeCnt sys k ≤ 1
  pendIff : k ∈ sys.st.pending ↔ activeCnt sys k = 1
  notYetFac : ∀ t ∈ sys.tasks, keyOfT t = k →
    (t.phase = Phase.notStarted ∨ t.phase = Phase.awaitElig) → t.invokedFactory = false
  facActiveOrFin :
    (k ∉ sys.finished ∧
      ∀ t ∈ sys.tasks, keyOfT t = k → t.invokedFactory = true → isActiveP t.phase = true)
    ∨ (k ∈ sys.finished ∧ activeCnt sys k = 0 ∧ facCnt sys k ≤ 1)

/-- Builds a workspace folder from scheme, path and display name. -/
def mkFolder (scheme fpath fname : String) : WorkspaceFolder :=
  { uri := { scheme := scheme, path := fpath }, name := fname }

/-- Concrete fixture: a workspace folder. -/
def folderA : WorkspaceFolder := { uri := { scheme := "file", path := "/a" }, name := "A" }

/-- Concrete fixture: a second workspace folder with a different key. -/
def folderB : WorkspaceFolder := { uri := { scheme := "file", path := "/b" }, name := "B" }

/-- Concrete fixture: collaborator outcomes of a fully successful start. -/
def envOk : StartEnv :=
  { elig := EligRes.yes, factory := FactoryRes.ok 7, startOk := true, syncOk := true,
    openDocs := [] }

/-- Concrete fixture: collaborator outcomes where the client factory throws. -/
def envFacErr : StartEnv :=
  { elig := EligRes.yes, factory := FactoryRes.err, startOk := true, syncOk := true,
    openDocs := [] }

/-- Concrete fixture: a manager state with one live client for `folderA`. -/
def stateClientA : MState :=
  { initState with clients := [(getFolderKey folderA, 3)] }

/-- Concrete fixture: a manager state with live clients for `folderA` and
`folderB`. -/
def stateAB : MState :=
  { initState with
    clients := [(getFolderKey folderA, 3), (getFolderKey folderB, 4)] }

/-- Concrete fixture: a live client for `folderA` with a registered watcher
batch. -/
def stateClientWatchersA : MState :=
  { initState with
    clients := [(getFolderKey folderA, 3)],
    watchers := [(getFolderKey folderA, [8, 9])] }

/-! Helper lemmas about the embedded map and set operations. -/

theorem keysOf_nil {α : Type} : keysOf ([] : List (String × α)) = [] := rfl

theorem keysOf_cons {α : Type} (p : String × α) (l : List (String × α)) :
    keysOf (p :: l) = p.1 :: keysOf l := rfl

theorem lookupA_insertA_self {α : Type} (k : String) (v : α) (l : List (String × α)) :
    lookupA (insertA k v l) k = some v := by
  induction l with
  | nil => simp [insertA, lookupA]
  | cons p rest ih =>
    obtain ⟨a, w⟩ := p
    by_cases h : a = k
    · simp [insertA, h, lookupA]
    · simp [insertA, h, lookupA, ih]

theorem lookupA_insertA_ne {α : Type} {k k' : String} {v : α} {l : List (String × α)}
    (h : k' ≠ k) : lookupA (insertA k v l) k' = lookupA l k' := by
  have h2 : k ≠ k' := Ne.symm h
  induction l with
  | nil => simp [insertA, lookupA, h2]
  | cons p rest ih =>
    obtain ⟨a, w⟩ := p
    by_cases ha : a = k
    · subst ha
      simp [insertA, lookupA, h2]
    · simp [insertA, ha, lookupA, ih]

theorem lookupA_eq_none_iff {α : Type} {l : List (String × α)} {k : String} :
    lookupA l k = none ↔ k ∉ keysOf l := by
  induction l with
  | nil => simp [lookupA, keysOf_nil]
  | cons p rest ih =>
    obtain ⟨a, w⟩ := p
    rw [keysOf_cons, List.mem_cons]
    by_cases h : a = k
    · subst h
      simp [lookupA]
    · have h2 : ¬ k = a := fun e => h e.symm
      simp only [lookupA, if_neg h, ih, not_or]
      simp [h2]

theorem eraseA_of_lookup_none {α : Type} {l : List (String × α)} {k : String}
    (h : lookupA l k = none) : eraseA k l = l := by
  induction l with
  | nil => simp [eraseA]
  | cons p rest ih =>
    obtain ⟨a, w⟩ := p
    by_cases ha : a = k
    · simp [lookupA, ha] at h
    · simp [lookupA, ha] at h
      simp [eraseA, ha, ih h]

theorem lookupA_eraseA_ne {α : Type} {k k' : String} {l : List (String × α)}
    (h : k' ≠ k) : lookupA (eraseA k l) k' = lookupA l k' := by
  have h2 : k ≠ k' := Ne.symm h
  induction l with
  | nil => simp [eraseA]
  | cons p rest ih =>
    obtain ⟨a, w⟩ := p
    by_cases ha : a = k
    · subst ha
      simp [eraseA, lookupA, h2]
    · simp [eraseA, ha, lookupA, ih]

theorem lookupA_eraseA_self {α : Type} {l : List (String × α)} {k : String}
    (h : (keysOf l).Nodup) : lookupA (eraseA k l) k = none := by
  induction l with
  | nil => simp [eraseA, lookupA]
  | cons p rest ih =>
    obtain ⟨a, w⟩ := p
    rw [keysOf_cons, List.nodup_cons] at h
    by_cases ha : a = k
    · subst ha
      simp only [eraseA, if_pos rfl]
      exact lookupA_eq_none_iff.mpr h.1
    · simp [eraseA, ha, lookupA, ih h.2]

theorem eraseA_insertA_of_none {α : Type} {l : List (String × α)} {k : String} (v : α)
    (h : lookupA l k = none) : eraseA k (insertA k v l) = l := by
  induction l with
  | nil => simp [insertA, eraseA]
  | cons p rest ih =>
    obtain ⟨a, w⟩ := p
    by_cases ha : a = k
    · simp [lookupA, ha] at h
    · simp [lookupA, ha] at h
      simp [insertA, ha, eraseA, ih h]

theorem mem_keysOf_insertA {α : Type} {x k : String} (v : α) (l : List (String × α)) :
    x ∈ keysOf (insertA k v l) ↔ x = k ∨ x ∈ keysOf l := by
  induction l with
  | nil => simp [insertA, keysOf_cons, keysOf_nil]
  | cons p rest ih =>
    obtain ⟨a, w⟩ := p
    by_cases ha : a = k
    · subst ha
      simp [insertA, keysOf_cons, List.mem_cons]
    · simp [insertA, ha, keysOf_cons, List.mem_cons, ih]
      tauto

theorem nodup_keysOf_insertA {α : Type} {l : List (String × α)} (k : String) (v : α)
    (h : (keysOf l).Nodup) : (keysOf (insertA k v l)).Nodup := by
  induction l with
  | nil => simp [insertA, keysOf_cons, keysOf_nil]
  | cons p rest ih =>
    obtain ⟨a, w⟩ := p
    rw [keysOf_cons, List.nodup_cons] at h
    by_cases ha : a = k
    · subst ha
      rw [insertA, if_pos rfl, keysOf_cons, List.nodup_cons]
      exact h
    · have tail := ih h.2
      rw [insertA, if_neg ha, keysOf_cons, List.nodup_cons]
      refine ⟨?_, tail⟩
      intro hx
      rcases (mem_keysOf_insertA v rest).mp hx with hak | hmem
      · exact ha hak
      · exact h.1 hmem

theorem keysOf_eraseA_sublist {α : Type} (k : String) (l : List (String × α)) :
    List.Sublist (keysOf (eraseA k l)) (keysOf l) := by
  induction l with
  | nil => simp [eraseA]
  | cons p rest ih =>
    obtain ⟨a, w⟩ := p
    by_cases ha : a = k
    · rw [eraseA, if_pos ha, keysOf_cons]
      exact List.sublist_cons_self a (keysOf rest)
    · rw [eraseA, if_neg ha, keysOf_cons, keysOf_cons]
      exact ih.cons₂ a

theorem nodup_keysOf_eraseA {α : Type} {l : List (String × α)} (k : String)
    (h : (keysOf l).Nodup) : (keysOf (eraseA k l)).Nodup :=
  h.sublist (keysOf_eraseA_sublist k l)

theorem mem_addKey {a k : String} {l : List String} :
    a ∈ addKey k l ↔ a = k ∨ a ∈ l := by
  unfold addKey
  by_cases h : k ∈ l
  · simp only [if_pos h]
    constructor
    · exact Or.inr
    · rintro (rfl | ha)
      · exact h
      · exact ha
  · simp [if_neg h, List.mem_cons]

theorem mem_removeKey {a k : String} {l : List String} :
    a ∈ removeKey k l ↔ a ∈ l ∧ a ≠ k := by
  simp [removeKey, List.mem_filter]

theorem not_mem_removeKey_self (k : String) (l : List String) :
    k ∉ removeKey k l := by
  simp [mem_removeKey]

theorem countKeyP_eq_count_keysOf {α : Type} (l : List (String × α)) (k : String) :
    l.countP (fun p => p.1 == k) = (keysOf l).count k := by
  rw [keysOf, List.count_eq_countP, List.countP_map]
  rfl

theorem countKeyP_le_one {α : Type} {l : List (String × α)} (k : String)
    (h : (keysOf l).Nodup) : l.countP (fun p => p.1 == k) ≤ 1 := by
  rw [countKeyP_eq_count_keysOf]
  exact List.nodup_iff_count_le_one.mp h k

theorem countP_set_eq {α : Type} (p : α → Bool) (l : List α) (i : Nat) {t : α} (t' : α)
    (h : l[i]? = some t) :
    (l.set i t').countP p + (if p t then 1 else 0)
      = l.countP p + (if p t' then 1 else 0) := by
  induction l generalizing i with
  | nil => simp at h
  | cons a as ih =>
    cases i with
    | zero =>
      simp at h
      subst h
      simp [List.countP_cons]
      omega
    | succ n =>
      simp at h
      have := ih n h
      simp [List.countP_cons]
      omega

/-! Path equations for the lifecycle operations. -/

theorem cleanupWatchersSt_state (key : String) (s : MState) :
    (cleanupWatchersSt key s).1 = { s with watchers := eraseA key s.watchers } := by
  unfold cleanupWatchersSt
  cases lookupA s.watchers key <;> rfl

theorem cleanupWatchersSt_events (key : String) (s : MState) :
    (cleanupWatchersSt key s).2 =
      match lookupA s.watchers key with
      | some batch => batch.map Ev.dispose
      | none => [] := by
  unfold cleanupWatchersSt
  cases lookupA s.watchers key <;> rfl

theorem startFail_state (f : WorkspaceFolder) (s : MState) :
    (startFail f s).1 =
      { s with clients := eraseA (getFolderKey f) s.clients,
               watchers := eraseA (getFolderKey f) s.watchers,
               pending := removeKey (getFolderKey f) s.pending } := by
  simp only [startFail, cleanupWatchersSt_state]

theorem startFail_events_some {f : WorkspaceFolder} {s : MState} {batch : List Nat}
    (h : lookupA s.watchers (getFolderKey f) = some batch) :
    (startFail f s).2 =
      batch.map Ev.dispose ++ [Ev.log (failStartMsg f), Ev.onError (onErrorMsg f) f.name] := by
  simp only [startFail, cleanupWatchersSt_events]
  rw [h]

theorem startFail_events_none {f : WorkspaceFolder} {s : MState}
    (h : lookupA s.watchers (getFolderKey f) = none) :
    (startFail f s).2 = [Ev.log (failStartMsg f), Ev.onError (onErrorMsg f) f.name] := by
  simp only [startFail, cleanupWatchersSt_events]
  rw [h]
  rfl

theorem stopForFolder_none_eq (stopFails : Bool) (f : WorkspaceFolder) (s : MState)
    (h : lookupA s.clients (getFolderKey f) = none) :
    stopForFolder stopFails f s = (Outcome.ok, s, []) := by
  simp only [stopForFolder, h]

theorem stopForFolder_err_eq (f : WorkspaceFolder) (s : MState) (cid : Nat)
    (h : lookupA s.clients (getFolderKey f) = some cid) :
    stopForFolder true f s
      = (Outcome.err, s, [Ev.log (stoppingMsg f), Ev.clientStopCall cid]) := by
  simp only [stopForFolder, h]
  rfl

theorem stopForFolder_ok_state (f : WorkspaceFolder) (s : MState) (cid : Nat)
    (h : lookupA s.clients (getFolderKey f) = some cid) :
    (stopForFolder false f s).1 = Outcome.ok ∧
    (stopForFolder false f s).2.1 =
      { s with clients := eraseA (getFolderKey f) s.clients,
               caches := eraseA (getFolderKey f) s.caches,
               watchers := eraseA (getFolderKey f) s.watchers } := by
  simp only [stopForFolder, h, Bool.false_eq_true, if_false, cleanupWatchersSt_state]
  exact ⟨trivial, trivial⟩

theorem removeKey_of_not_mem {k : String} {l : List String} (h : k ∉ l) :
    removeKey k l = l := by
  unfold removeKey
  apply List.filter_eq_self.mpr
  intro a ha
  simp only [bne_iff_ne, ne_eq, decide_eq_true_eq]
  exact fun e => h (e ▸ ha)

theorem removeKey_addKey_self {k : String} {l : List String} (h : k ∉ l) :
    removeKey k (addKey k l) = l := by
  unfold addKey
  rw [if_neg h]
  unfold removeKey
  rw [List.filter_cons]
  simp only [bne_self_eq_false, Bool.false_eq_true, if_false]
  exact removeKey_of_not_mem h

theorem mem_removeKey_addKey_ne {k' k : String} {l : List String} (hne : k' ≠ k) :
    k' ∈ removeKey k (addKey k l) ↔ k' ∈ l := by
  simp [mem_removeKey, mem_addKey, hne]

/-! Claim theorems. -/

/-- Claim C7: for every folder whose key has no live client, `stopForFolder`
completes without throwing and without changing any manager state (clients,
caches, watchers and pending set all unchanged), and invokes no
collaborator at all (no events). -/
theorem stopForFolder_no_client_noop (stopFails : Bool) (f : WorkspaceFolder) (s : MState)
    (h : lookupA s.clients (getFolderKey f) = none) :
    stopForFolder stopFails f s = (Outcome.ok, s, []) :=
  stopForFolder_none_eq stopFails f s h

/-- Witness for C7 at a concrete input: stopping `folderA` on the empty
manager is a no-op. -/
theorem stopForFolder_no_client_noop_witness :
    stopForFolder true folderA initState = (Outcome.ok, initState, []) :=
  stopForFolder_no_client_noop true folderA initState rfl

/-- Claim C10: if a folder has a live client and that client's `stop()`
rejects, `stopForFolder` propagates the error having performed no teardown:
the returned state is exactly the input state (client entry, diagnostic
cache, watcher batch and pending set untouched). -/
theorem stopForFolder_stop_error_no_teardown (f : WorkspaceFolder) (s : MState) (cid : Nat)
    (h : lookupA s.clients (getFolderKey f) = some cid) :
    stopForFolder true f s
      = (Outcome.err, s, [Ev.log (stoppingMsg f), Ev.clientStopCall cid]) :=
  stopForFolder_err_eq f s cid h

/-- Witness for C10 at a concrete input: a failing stop of `folderA`'s
client leaves `stateClientA` untouched. -/
theorem stopForFolder_stop_error_no_teardown_witness :
    stopForFolder true folderA stateClientA
      = (Outcome.err, stateClientA,
          [Ev.log (stoppingMsg folderA), Ev.clientStopCall 3]) :=
  stopForFolder_stop_error_no_teardown folderA stateClientA 3
    (by simp [stateClientA, initState, lookupA])

theorem count_onError_disposes (batch : List Nat) (m n : String) :
    (batch.map Ev.dispose).count (Ev.onError m n) = 0 :=
  List.count_eq_zero.mpr (by simp)

theorem startFail_cleanup_facts (f : WorkspaceFolder) (sX : MState)
    (hKl : lookupA (eraseA (getFolderKey f) sX.clients) (getFolderKey f) = none)
    (hwN : (keysOf sX.watchers).Nodup) :
    lookupA (startFail f sX).1.clients (getFolderKey f) = none ∧
    lookupA (startFail f sX).1.watchers (getFolderKey f) = none ∧
    getFolderKey f ∉ (startFail f sX).1.pending ∧
    (∀ batch, lookupA sX.watchers (getFolderKey f) = some batch →
      ∀ d ∈ batch, Ev.dispose d ∈ (startFail f sX).2) ∧
    (startFail f sX).2.count (Ev.onError (onErrorMsg f) f.name) = 1 ∧
    Ev.log (failStartMsg f) ∈ (startFail f sX).2 := by
  refine ⟨?_, ?_, ?_, ?_, ?_, ?_⟩
  · rw [startFail_state]
    exact hKl
  · rw [startFail_state]
    exact lookupA_eraseA_self hwN
  · rw [startFail_state]
    exact not_mem_removeKey_self _ _
  · intro batch hb d hd
    rw [startFail_events_some hb]
    exact List.mem_append_left _ (List.mem_map_of_mem _ hd)
  · cases hlw : lookupA sX.watchers (getFolderKey f) with
    | some batch =>
      rw [startFail_events_some hlw]
      simp [List.count_append, count_onError_disposes, List.count_cons]
    | none =>
      rw [startFail_events_none hlw]
      simp [List.count_cons]
  · cases hlw : lookupA sX.watchers (getFolderKey f) with
    | some batch =>
      rw [startFail_events_some hlw]
      simp
    | none =>
      rw [startFail_events_none hlw]
      simp

/-- Claim C2: if the client factory throws, or the created client's
`start()` fails, during `startForFolder`, then afterwards the clients map
has no entry for the folder's key, any watcher batch registered for the key
(including one registered before the attempt) has been disposed and its
entry removed, the failure is reported exactly once through the
error-notification collaborator and logged; the error is swallowed
(`startForFolder` is total). -/
theorem startForFolder_failure_cleanup
    (supported : String → Bool) (ws : TextDocument → Option WorkspaceFolder)
    (env : StartEnv) (f : WorkspaceFolder) (s : MState)
    (h1 : lookupA s.clients (getFolderKey f) = none)
    (h2 : getFolderKey f ∉ s.pending)
    (hw : (keysOf s.watchers).Nodup)
    (helig : env.elig = EligRes.yes)
    (hfail : env.factory = FactoryRes.err ∨
      ∃ cid, env.factory = FactoryRes.ok cid ∧ env.startOk = false) :
    lookupA (startForFolder supported ws env f s).1.clients (getFolderKey f) = none ∧
    lookupA (startForFolder supported ws env f s).1.watchers (getFolderKey f) = none ∧
    getFolderKey f ∉ (startForFolder supported ws env f s).1.pending ∧
    (∀ batch, lookupA s.watchers (getFolderKey f) = some batch →
      ∀ d ∈ batch, Ev.dispose d ∈ (startForFolder supported ws env f s).2) ∧
    (startForFolder supported ws env f s).2.count (Ev.onError (onErrorMsg f) f.name) = 1 ∧
    Ev.log (failStartMsg f) ∈ (startForFolder supported ws env f s).2 := by
  rcases hfail with hf | ⟨cid, hf, hs⟩
  · have heq : startForFolder supported ws env f s
        = startFail f { s with pending := addKey (getFolderKey f) s.pending } := by
      simp [startForFolder, h1, h2, helig, hf]
    rw [heq]
    refine startFail_cleanup_facts f _ ?_ hw
    show lookupA (eraseA (getFolderKey f) s.clients) (getFolderKey f) = none
    rw [eraseA_of_lookup_none h1]
    exact h1
  · have heq : startForFolder supported ws env f s
        = startFail f { s with clients := insertA (getFolderKey f) cid s.clients,
                               pending := addKey (getFolderKey f) s.pending } := by
      simp [startForFolder, h1, h2, helig, hf, hs]
    rw [heq]
    refine startFail_cleanup_facts f _ ?_ hw
    show lookupA (eraseA (getFolderKey f) (insertA (getFolderKey f) cid s.clients))
      (getFolderKey f) = none
    rw [eraseA_insertA_of_none cid h1]
    exact h1

/-- Witness for C2 at a concrete input: a factory failure for `folderA`
with a previously registered watcher batch `[4, 5]`. -/
theorem startForFolder_failure_cleanup_witness :
    lookupA (startForFolder (fun _ => false) (fun _ => none) envFacErr folderA
        { initState with watchers := [(getFolderKey folderA, [4, 5])] }).1.clients
        (getFolderKey folderA) = none ∧
    lookupA (startForFolder (fun _ => false) (fun _ => none) envFacErr folderA
        { initState with watchers := [(getFolderKey folderA, [4, 5])] }).1.watchers
        (getFolderKey folderA) = none ∧
    getFolderKey folderA ∉ (startForFolder (fun _ => false) (fun _ => none) envFacErr folderA
        { initState with watchers := [(getFolderKey folderA, [4, 5])] }).1.pending ∧
    (∀ batch,
      lookupA ({ initState with
          watchers := [(getFolderKey folderA, [4, 5])] } : MState).watchers
          (getFolderKey folderA) = some batch →
      ∀ d ∈ batch,
        Ev.dispose d ∈ (startForFolder (fun _ => false) (fun _ => none) envFacErr folderA
          { initState with watchers := [(getFolderKey folderA, [4, 5])] }).2) ∧
    (startForFolder (fun _ => false) (fun _ => none) envFacErr folderA
        { initState with watchers := [(getFolderKey folderA, [4, 5])] }).2.count
        (Ev.onError (onErrorMsg folderA) folderA.name) = 1 ∧
    Ev.log (failStartMsg folderA) ∈ (startForFolder (fun _ => false) (fun _ => none)
        envFacErr folderA
        { initState with watchers := [(getFolderKey folderA, [4, 5])] }).2 :=
  startForFolder_failure_cleanup (fun _ => false) (fun _ => none) envFacErr folderA
    { initState with watchers := [(getFolderKey folderA, [4, 5])] }
    rfl (by simp [initState]) (by simp [keysOf, initState]) rfl (Or.inl rfl)

theorem startForFolder_success_state (supported : String → Bool)
    (ws : TextDocument → Option WorkspaceFolder) (env : StartEnv)
    (f : WorkspaceFolder) (s : MState) (cid : Nat)
    (h1 : lookupA s.clients (getFolderKey f) = none)
    (h2 : getFolderKey f ∉ s.pending)
    (he : env.elig = EligRes.yes) (hf : env.factory = FactoryRes.ok cid)
    (hs : env.startOk = true) (hy : env.syncOk = true) :
    (startForFolder supported ws env f s).1 =
      { s with clients := insertA (getFolderKey f) cid s.clients,
               caches := insertA (getFolderKey f)
                 { id := s.nextCacheId, docs := [] } s.caches,
               nextCacheId := s.nextCacheId + 1 } := by
  simp [startForFolder, h1, h2, he, hf, hs, hy, removeKey_addKey_self h2]

/-- Claim C4: a completed `stopForFolder` followed by a completed successful
`startForFolder` for the same key installs a diagnostic cache that is a
fresh empty instance, distinct from every cache instance the key had before
the stop (the stop deleted the old entry; the successful start allocated a
new empty map). -/
theorem stop_then_start_fresh_cache (supported : String → Bool)
    (ws : TextDocument → Option WorkspaceFolder) (env : StartEnv)
    (f : WorkspaceFolder) (s : MState) (cid cid' : Nat)
    (hc : lookupA s.clients (getFolderKey f) = some cid)
    (hnodup : (keysOf s.clients).Nodup)
    (hp : getFolderKey f ∉ s.pending)
    (hbound : ∀ c : DiagCache, lookupA s.caches (getFolderKey f) = some c →
      c.id < s.nextCacheId)
    (he : env.elig = EligRes.yes) (hf : env.factory = FactoryRes.ok cid')
    (hs : env.startOk = true) (hy : env.syncOk = true) :
    (stopForFolder false f s).1 = Outcome.ok ∧
    lookupA (startForFolder supported ws env f (stopForFolder false f s).2.1).1.caches
        (getFolderKey f) = some ({ id := s.nextCacheId, docs := [] } : DiagCache) ∧
    (∀ c : DiagCache, lookupA s.caches (getFolderKey f) = some c →
      c.id ≠ s.nextCacheId) := by
  obtain ⟨ho, hstate⟩ := stopForFolder_ok_state f s cid hc
  refine ⟨ho, ?_, ?_⟩
  · rw [hstate]
    have hss := startForFolder_success_state supported ws env f
      { s with clients := eraseA (getFolderKey f) s.clients,
               caches := eraseA (getFolderKey f) s.caches,
               watchers := eraseA (getFolderKey f) s.watchers } cid'
      (lookupA_eraseA_self hnodup) hp he hf hs hy
    rw [hss]
    exact lookupA_insertA_self _ _ _
  · intro c hcache
    exact Nat.ne_of_lt (hbound c hcache)

/-- Witness for C4 at a concrete input: stop then successful restart of
`folderA`'s client on `stateClientA`. -/
theorem stop_then_start_fresh_cache_witness :
    (stopForFolder false folderA stateClientA).1 = Outcome.ok ∧
    lookupA (startForFolder (fun _ => false) (fun _ => none) envOk folderA
        (stopForFolder false folderA stateClientA).2.1).1.caches
        (getFolderKey folderA)
      = some ({ id := stateClientA.nextCacheId, docs := [] } : DiagCache) ∧
    (∀ c : DiagCache, lookupA stateClientA.caches (getFolderKey folderA) = some c →
      c.id ≠ stateClientA.nextCacheId) :=
  stop_then_start_fresh_cache (fun _ => false) (fun _ => none) envOk folderA stateClientA
    3 7 (by simp [stateClientA, initState, lookupA])
    (by simp [stateClientA, initState, keysOf])
    (by simp [stateClientA, initState])
    (by intro c hc; simp [stateClientA, initState, lookupA] at hc)
    rfl rfl rfl rfl

/-- Claim C8: `notifyDocumentOpenIfNeeded` is a pure no-op when the
document's language is unsupported, or the document belongs to no folder,
or the owning folder has no client; otherwise it consults the folder's
diagnostic cache and sends the open notification exactly when the
document's key is absent from it. -/
theorem notifyDocumentOpen_cases (supported : String → Bool)
    (ws : TextDocument → Option WorkspaceFolder) (doc : TextDocument) (s : MState) :
    (supported doc.languageId = false →
      notifyDocumentOpenIfNeeded supported ws doc s = (s, [])) ∧
    (ws doc = none → notifyDocumentOpenIfNeeded supported ws doc s = (s, [])) ∧
    (∀ folder, ws doc = some folder →
      lookupA s.clients (getFolderKey folder) = none →
      notifyDocumentOpenIfNeeded supported ws doc s = (s, [])) ∧
    (∀ folder cid, ws doc = some folder → supported doc.languageId = true →
      lookupA s.clients (getFolderKey folder) = some cid →
      notifyDocumentOpenIfNeeded supported ws doc s =
        ((getDiagnosticCacheForFolder folder s).1,
          if doc.uriStr ∈ (getDiagnosticCacheForFolder folder s).2.docs then []
          else [Ev.sendOpen cid doc.uriStr])) := by
  refine ⟨?_, ?_, ?_, ?_⟩
  · intro h
    simp [notifyDocumentOpenIfNeeded, h]
  · intro h
    simp [notifyDocumentOpenIfNeeded, h]
  · intro folder hwd hcl
    simp [notifyDocumentOpenIfNeeded, hwd, hcl]
  · intro folder cid hwd hsup hcl
    by_cases hmem : doc.uriStr ∈ (getDiagnosticCacheForFolder folder s).2.docs
    · simp [notifyDocumentOpenIfNeeded, hwd, hsup, hcl, hmem]
    · simp [notifyDocumentOpenIfNeeded, hwd, hsup, hcl, hmem]

/-- Witness for C8 at a concrete input: a supported document of `folderA`
with a live client and an empty cache gets an open notification. -/
theorem notifyDocumentOpen_cases_witness :
    notifyDocumentOpenIfNeeded (fun l => l == "ruby") (fun _ => some folderA)
        { uriStr := "file:///a/x.rb", languageId := "ruby" } stateClientA =
      ((getDiagnosticCacheForFolder folderA stateClientA).1,
        if ("file:///a/x.rb" : String) ∈
            (getDiagnosticCacheForFolder folderA stateClientA).2.docs then []
        else [Ev.sendOpen 3 ("file:///a/x.rb")]) :=
  (notifyDocumentOpen_cases (fun l => l == "ruby") (fun _ => some folderA)
      { uriStr := "file:///a/x.rb", languageId := "ruby" } stateClientA).2.2.2
    folderA 3 rfl (by decide) (by simp [stateClientA, initState, lookupA])

/-- Claim C3 (refuting evaluation): on the success path of `startForFolder`
with the extension's real factory, the cache instance captured during client
creation (allocation id 0) is not the instance the manager holds for the key
after the start completed (allocation id 1, installed by `afterStart`);
repeated `getDiagnosticCacheForFolder` calls without an intervening
`afterStart` do return the same instance. -/
theorem diagnosticCache_capture_mismatch :
    (startForFolderExt [0, 1] 7 folderA initState).2
        = some ({ id := 0, docs := [] } : DiagCache) ∧
    lookupA (startForFolderExt [0, 1] 7 folderA initState).1.caches (getFolderKey folderA)
        = some ({ id := 1, docs := [] } : DiagCache) ∧
    ({ id := 0, docs := [] } : DiagCache) ≠ ({ id := 1, docs := [] } : DiagCache) ∧
    getDiagnosticCacheForFolder folderA (getDiagnosticCacheForFolder folderA initState).1
      = ((getDiagnosticCacheForFolder folderA initState).1,
          (getDiagnosticCacheForFolder folderA initState).2) := by
  refine ⟨by decide, by decide, by decide, by decide⟩

theorem map_sepCanon_no_backslash (l : List Char) (h : ('\\' : Char) ∉ l) :
    l.map sepCanon = l := by
  induction l with
  | nil => simp
  | cons c cs ih =>
    rw [List.mem_cons, not_or] at h
    have hc : c ≠ '\\' := fun e => h.1 e.symm
    simp [sepCanon, hc, ih h.2]

theorem no_backslash_in_map_sepCanon (l : List Char) :
    ('\\' : Char) ∉ l.map sepCanon := by
  intro hmem
  rw [List.mem_map] at hmem
  obtain ⟨c, _, hc⟩ := hmem
  by_cases h : c = '\\'
  · rw [sepCanon, if_pos h] at hc
    exact absurd hc (by decide)
  · rw [sepCanon, if_neg h] at hc
    exact h hc

theorem joinSep_map_canon (segs : List String)
    (h : ∀ seg ∈ segs, ('\\' : Char) ∉ seg.data) :
    (joinSep '\\' segs).data.map sepCanon = (joinSep '/' segs).data ∧
    (joinSep '/' segs).data.map sepCanon = (joinSep '/' segs).data := by
  induction segs with
  | nil => simp [joinSep]
  | cons s rest ih =>
    cases rest with
    | nil =>
      have hs := h s (by simp)
      simp [joinSep, map_sepCanon_no_backslash _ hs]
    | cons r rs =>
      have hs := h s (by simp)
      have hrest : ∀ seg ∈ r :: rs, ('\\' : Char) ∉ seg.data :=
        fun seg hseg => h seg (by simp [hseg])
      obtain ⟨ih1, ih2⟩ := ih hrest
      constructor
      · show (s.data ++ '\\' :: (joinSep '\\' (r :: rs)).data).map sepCanon
          = s.data ++ '/' :: (joinSep '/' (r :: rs)).data
        rw [List.map_append, map_sepCanon_no_backslash _ hs, List.map_cons, ih1]
        simp [sepCanon]
      · show (s.data ++ '/' :: (joinSep '/' (r :: rs)).data).map sepCanon
          = s.data ++ '/' :: (joinSep '/' (r :: rs)).data
        rw [List.map_append, map_sepCanon_no_backslash _ hs, List.map_cons, ih2]
        simp [sepCanon]

/-- Claim C9: path-like folder identities are normalized so that
directory-separator differences cannot yield two distinct keys for one
location: `normalizePathForGlob` maps the backslash-separated and the
forward-slash-separated form of the same location to the single canonical
forward-slash form (its output never contains a backslash), and the folder
key derived from the two forms is one and the same string. -/
theorem folder_key_normalization (segs : List String) (scheme fname : String)
    (h : ∀ seg ∈ segs, ('\\' : Char) ∉ seg.data) :
    normalizePathForGlob (joinSep '\\' segs) = joinSep '/' segs ∧
    normalizePathForGlob (joinSep '/' segs) = joinSep '/' segs ∧
    (∀ p : String, ('\\' : Char) ∉ (normalizePathForGlob p).data) ∧
    getFolderKey (mkFolder scheme (joinSep '\\' segs) fname)
      = getFolderKey (mkFolder scheme (joinSep '/' segs) fname) := by
  obtain ⟨e1, e2⟩ := joinSep_map_canon segs h
  refine ⟨?_, ?_, ?_, ?_⟩
  · show String.mk ((joinSep '\\' segs).data.map sepCanon) = joinSep '/' segs
    rw [e1]
  · show String.mk ((joinSep '/' segs).data.map sepCanon) = joinSep '/' segs
    rw [e2]
  · intro p
    exact no_backslash_in_map_sepCanon p.data
  · simp only [mkFolder, getFolderKey, Uri.toStr]
    rw [e1, e2]

/-- Witness for C9 at a concrete input: the Windows form and the POSIX form
of `C:/Users/proj` normalize to the same canonical form and produce the
same folder key. -/
theorem folder_key_normalization_witness :
    normalizePathForGlob (joinSep '\\' ["C:", "Users", "proj"])
        = joinSep '/' ["C:", "Users", "proj"] ∧
    normalizePathForGlob (joinSep '/' ["C:", "Users", "proj"])
        = joinSep '/' ["C:", "Users", "proj"] ∧
    (∀ p : String, ('\\' : Char) ∉ (normalizePathForGlob p).data) ∧
    getFolderKey (mkFolder "file" (joinSep '\\' ["C:", "Users", "proj"]) "proj")
      = getFolderKey (mkFolder "file" (joinSep '/' ["C:", "Users", "proj"]) "proj") :=
  folder_key_normalization ["C:", "Users", "proj"] "file" "proj" (by decide)

theorem startForFolder_preserves_other (supported : String → Bool)
    (ws : TextDocument → Option WorkspaceFolder) (env : StartEnv)
    (f : WorkspaceFolder) (s : MState) (k' : String)
    (hne : k' ≠ getFolderKey f) :
    lookupA (startForFolder supported ws env f s).1.clients k' = lookupA s.clients k' ∧
    (k' ∈ (startForFolder supported ws env f s).1.pending ↔ k' ∈ s.pending) := by
  unfold startForFolder
  by_cases h1 : (lookupA s.clients (getFolderKey f)).isSome
  · simp [h1]
  · by_cases h2 : getFolderKey f ∈ s.pending
    · simp [h1, h2]
    · cases he : env.elig with
      | err =>
        simp [h1, h2, startFail_state, lookupA_eraseA_ne hne,
          mem_removeKey_addKey_ne hne]
      | no =>
        simp [h1, h2, mem_removeKey_addKey_ne hne]
      | yes =>
        cases hf : env.factory with
        | err =>
          simp [h1, h2, startFail_state, lookupA_eraseA_ne hne,
            mem_removeKey_addKey_ne hne]
        | null =>
          simp [h1, h2, mem_removeKey_addKey_ne hne]
        | ok cid =>
          by_cases hs : env.startOk
          · by_cases hy : env.syncOk
            · simp [h1, h2, hs, hy, lookupA_insertA_ne hne,
                mem_removeKey_addKey_ne hne]
            · simp [h1, h2, hs, hy, startFail_state, lookupA_eraseA_ne hne,
                lookupA_insertA_ne hne, mem_removeKey_addKey_ne hne]
          · simp [h1, h2, hs, startFail_state, lookupA_eraseA_ne hne,
              lookupA_insertA_ne hne, mem_removeKey_addKey_ne hne]

theorem stopForFolder_no_fail_ok (f : WorkspaceFolder) (s : MState) :
    (stopForFolder false f s).1 = Outcome.ok := by
  unfold stopForFolder
  cases h : lookupA s.clients (getFolderKey f) <;> simp [h]

theorem processRemoved_ok (stopFails : WorkspaceFolder → Bool) :
    ∀ (removed : List WorkspaceFolder) (s : MState),
    (∀ f ∈ removed, stopFails f = false) →
    (processRemoved stopFails removed s).1 = Outcome.ok := by
  intro removed
  induction removed with
  | nil =>
    intro s h
    rfl
  | cons f rest ih =>
    intro s h
    have hf : stopFails f = false := h f (by simp)
    unfold processRemoved
    rw [hf]
    rcases hst : stopForFolder false f s with ⟨o, s1, e1⟩
    have ho : o = Outcome.ok := by
      have hx := stopForFolder_no_fail_ok f s
      rw [hst] at hx
      exact hx
    subst ho
    simpa using ih s1 (fun g hg => h g (List.mem_cons_of_mem _ hg))

/-- Counterexample to Claim C6 as stated: with live clients for `folderA`
and `folderB`, a folder-change event removing both where `folderA`'s
`client.stop()` rejects makes the handler propagate the error (`err`), and
`folderB` — another folder of the same batch — is never processed: its
client entry survives.  A failure in one folder's stop is therefore not
isolated to that folder. -/
theorem batch_stop_failure_aborts :
    (handleFolderChange (fun _ => false) (fun _ => none) (fun _ => true) (fun _ => envOk)
        [folderA, folderB] [] stateAB).1 = Outcome.err ∧
    lookupA (handleFolderChange (fun _ => false) (fun _ => none) (fun _ => true)
        (fun _ => envOk) [folderA, folderB] [] stateAB).2.1.clients (getFolderKey folderB)
      = some 4 := by
  refine ⟨by decide, by decide⟩

/-- Claim C6 (amended): failures during the start half of batch processing
are isolated — a batch of starts always completes (`startForFolder` swallows
its failures), and a folder's successful start goes through regardless of
what an earlier folder's start attempt did; the removed-folder half is only
isolated when no `client.stop()` rejects: if every stop resolves the handler
returns normally, but a rejecting stop makes the handler propagate the
error immediately, leaving the remaining folders of the batch
unprocessed. -/
theorem batch_isolation (supported : String → Bool)
    (ws : TextDocument → Option WorkspaceFolder) :
    (∀ (envs : WorkspaceFolder → StartEnv) (s : MState) (f1 f2 : WorkspaceFolder) (cid : Nat),
      getFolderKey f2 ≠ getFolderKey f1 →
      lookupA s.clients (getFolderKey f2) = none →
      getFolderKey f2 ∉ s.pending →
      (envs f2).elig = EligRes.yes → (envs f2).factory = FactoryRes.ok cid →
      (envs f2).startOk = true → (envs f2).syncOk = true →
      lookupA (startAll supported ws envs [f1, f2] s).1.clients (getFolderKey f2)
        = some cid) ∧
    (∀ (stopFails : WorkspaceFolder → Bool) (envs : WorkspaceFolder → StartEnv)
        (removed added : List WorkspaceFolder) (s : MState),
      (∀ f ∈ removed, stopFails f = false) →
      (handleFolderChange supported ws stopFails envs removed added s).1 = Outcome.ok) ∧
    (∀ (stopFails : WorkspaceFolder → Bool) (envs : WorkspaceFolder → StartEnv)
        (f : WorkspaceFolder) (rest added : List WorkspaceFolder) (s : MState) (cid : Nat),
      stopFails f = true →
      lookupA s.clients (getFolderKey f) = some cid →
      handleFolderChange supported ws stopFails envs (f :: rest) added s
        = (Outcome.err, s, [Ev.log (stoppingMsg f), Ev.clientStopCall cid])) := by
  refine ⟨?_, ?_, ?_⟩
  · intro envs s f1 f2 cid hne hc2 hp2 he hf hs hy
    have hpres := startForFolder_preserves_other supported ws (envs f1) f1 s
      (getFolderKey f2) hne
    have h1' : lookupA (startForFolder supported ws (envs f1) f1 s).1.clients
        (getFolderKey f2) = none := by
      rw [hpres.1]
      exact hc2
    have h2' : getFolderKey f2 ∉ (startForFolder supported ws (envs f1) f1 s).1.pending :=
      fun hmem => hp2 (hpres.2.mp hmem)
    show lookupA (startAll supported ws envs [f2]
        (startForFolder supported ws (envs f1) f1 s).1).1.clients (getFolderKey f2) = some cid
    show lookupA (startAll supported ws envs []
        (startForFolder supported ws (envs f2) f2
          (startForFolder supported ws (envs f1) f1 s).1).1).1.clients
        (getFolderKey f2) = some cid
    rw [show startAll supported ws envs [] = fun s => (s, []) from rfl]
    rw [startForFolder_success_state supported ws (envs f2) f2 _ cid h1' h2' he hf hs hy]
    exact lookupA_insertA_self _ _ _
  · intro stopFails envs removed added s hall
    rcases hpr : processRemoved stopFails removed s with ⟨o, s1, e1⟩
    have ho : o = Outcome.ok := by
      have hx := processRemoved_ok stopFails removed s hall
      rw [hpr] at hx
      exact hx
    subst ho
    unfold handleFolderChange
    rw [hpr]
  · intro stopFails envs f rest added s cid hsf hc
    unfold handleFolderChange processRemoved
    rw [hsf, stopForFolder_err_eq f s cid hc]

/-- Witness for C6 (amended) at concrete inputs: a failed first start does
not block `folderB`'s start; an all-resolving removal batch returns `ok`;
a rejecting stop for `folderA` aborts the handler with `folderA`'s state
untouched. -/
theorem batch_isolation_witness :
    lookupA (startAll (fun _ => false) (fun _ => none)
        (fun g => if g = folderA then envFacErr else envOk) [folderA, folderB]
        initState).1.clients (getFolderKey folderB) = some 7 ∧
    (handleFolderChange (fun _ => false) (fun _ => none) (fun _ => false) (fun _ => envOk)
        [folderA] [] initState).1 = Outcome.ok ∧
    handleFolderChange (fun _ => false) (fun _ => none) (fun _ => true) (fun _ => envOk)
        [folderA] [] stateClientA
      = (Outcome.err, stateClientA,
          [Ev.log (stoppingMsg folderA), Ev.clientStopCall 3]) :=
  ⟨(batch_isolation (fun _ => false) (fun _ => none)).1
      (fun g => if g = folderA then envFacErr else envOk) initState folderA folderB 7
      (by decide) rfl (by simp [initState]) (by decide) (by decide) (by decide) (by decide),
    (batch_isolation (fun _ => false) (fun _ => none)).2.1 (fun _ => false) (fun _ => envOk)
      [folderA] [] initState (fun _ _ => rfl),
    (batch_isolation (fun _ => false) (fun _ => none)).2.2 (fun _ => true) (fun _ => envOk)
      folderA [] [] stateClientA 3 rfl (by simp [stateClientA, initState, lookupA])⟩

/-! Watcher-disposal accounting: every disposable identifier is disposed at
most as often as it was registered. -/

theorem watcherIds_insertA_count (k : String) (b : List Nat)
    (w : List (String × List Nat)) (d : Nat) :
    (watcherIds (insertA k b w)).count d ≤ (watcherIds w).count d + b.count d := by
  induction w with
  | nil => simp [insertA, watcherIds]
  | cons p rest ih =>
    obtain ⟨a, bb⟩ := p
    by_cases ha : a = k
    · simp only [insertA, if_pos ha, watcherIds, List.count_append]
      omega
    · simp only [insertA, if_neg ha, watcherIds, List.count_append]
      omega

theorem watcherIds_eraseA_count {w : List (String × List Nat)} {k : String}
    {batch : List Nat} (h : lookupA w k = some batch) (d : Nat) :
    (watcherIds (eraseA k w)).count d + batch.count d = (watcherIds w).count d := by
  induction w with
  | nil => simp [lookupA] at h
  | cons p rest ih =>
    obtain ⟨a, bb⟩ := p
    by_cases ha : a = k
    · simp only [lookupA, if_pos ha, Option.some.injEq] at h
      subst h
      simp only [eraseA, if_pos ha, watcherIds, List.count_append]
      omega
    · simp only [lookupA, if_neg ha] at h
      simp only [eraseA, if_neg ha, watcherIds, List.count_append, ← ih h]
      omega

theorem count_dispose_map (batch : List Nat) (d : Nat) :
    (batch.map Ev.dispose).count (Ev.dispose d) = batch.count d :=
  List.count_map_of_injective _ _ (fun a b h => by simpa using h) _

theorem count_dispose_sync (supported : String → Bool)
    (ws : TextDocument → Option WorkspaceFolder) (cid : Nat) (key : String)
    (docs : List TextDocument) (d : Nat) :
    (syncOpenDocuments supported ws cid key docs).count (Ev.dispose d) = 0 := by
  induction docs with
  | nil => rfl
  | cons doc rest ih =>
    simp only [syncOpenDocuments]
    by_cases hs : supported doc.languageId
    · rw [if_pos hs]
      cases hw : ws doc with
      | none => exact ih
      | some df =>
        by_cases hk : getFolderKey df = key
        · simp [hk, List.count_cons, ih]
        · simp [hk, ih]
    · rw [if_neg hs]
      exact ih

theorem count_dispose_stopAllLoop (fails : Nat → Bool) (cl : List (String × Nat)) (d : Nat) :
    ((stopAllLoop fails cl).2).count (Ev.dispose d) = 0 := by
  induction cl with
  | nil => rfl
  | cons p rest ih =>
    obtain ⟨a, cid⟩ := p
    simp only [stopAllLoop]
    by_cases hf : fails cid
    · rw [if_pos hf]
      simp
    · rw [if_neg hf]
      simp [List.count_cons, ih]

theorem count_dispose_disposeAll (w : List (String × List Nat)) (d : Nat) :
    (disposeAllWatchers w).count (Ev.dispose d) = (watcherIds w).count d := by
  induction w with
  | nil => rfl
  | cons p rest ih =>
    obtain ⟨a, b⟩ := p
    simp [disposeAllWatchers, watcherIds, List.count_append, count_dispose_map, ih]

theorem startFail_dispose_bound (f : WorkspaceFolder) (sX : MState) (d : Nat) :
    (watcherIds (startFail f sX).1.watchers).count d
      + ((startFail f sX).2).count (Ev.dispose d)
    ≤ (watcherIds sX.watchers).count d := by
  have hproj : (startFail f sX).1.watchers = eraseA (getFolderKey f) sX.watchers := by
    rw [startFail_state]
  cases hw : lookupA sX.watchers (getFolderKey f) with
  | some batch =>
    rw [hproj, startFail_events_some hw]
    have he := watcherIds_eraseA_count hw d
    have h0 : ([Ev.log (failStartMsg f), Ev.onError (onErrorMsg f) f.name] : List Ev).count
        (Ev.dispose d) = 0 := by simp
    rw [List.count_append, count_dispose_map, h0]
    omega
  | none =>
    rw [hproj, startFail_events_none hw, eraseA_of_lookup_none hw]
    simp [List.count_cons]

theorem startForFolder_dispose_bound (supported : String → Bool)
    (ws : TextDocument → Option WorkspaceFolder) (env : StartEnv)
    (f : WorkspaceFolder) (s : MState) (d : Nat) :
    (watcherIds (startForFolder supported ws env f s).1.watchers).count d
      + ((startForFolder supported ws env f s).2).count (Ev.dispose d)
    ≤ (watcherIds s.watchers).count d := by
  cases hc : lookupA s.clients (getFolderKey f) with
  | some cid =>
    have heq : startForFolder supported ws env f s = (s, []) := by
      simp [startForFolder, hc]
    rw [heq]
    simp
  | none =>
    by_cases h2 : getFolderKey f ∈ s.pending
    · have heq : startForFolder supported ws env f s = (s, []) := by
        simp [startForFolder, hc, h2]
      rw [heq]
      simp
    · cases he : env.elig with
      | err =>
        have heq : startForFolder supported ws env f s
            = startFail f { s with pending := addKey (getFolderKey f) s.pending } := by
          simp [startForFolder, hc, h2, he]
        rw [heq]
        exact startFail_dispose_bound f _ d
      | no =>
        have heq : startForFolder supported ws env f s
            = ({ s with pending := removeKey (getFolderKey f) (addKey (getFolderKey f) s.pending) }, [Ev.log (skipFolderMsg f)]) := by
          simp [startForFolder, hc, h2, he]
        rw [heq]
        simp [List.count_cons]
      | yes =>
        cases hf : env.factory with
        | err =>
          have heq : startForFolder supported ws env f s
              = startFail f { s with pending := addKey (getFolderKey f) s.pending } := by
            simp [startForFolder, hc, h2, he, hf]
          rw [heq]
          exact startFail_dispose_bound f _ d
        | null =>
          have heq : startForFolder supported ws env f s
              = ({ s with pending := removeKey (getFolderKey f) (addKey (getFolderKey f) s.pending) }, ([] : List Ev)) := by
            simp [startForFolder, hc, h2, he, hf]
          rw [heq]
          simp
        | ok cid =>
          by_cases hs : env.startOk
          · by_cases hy : env.syncOk
            · have heq : startForFolder supported ws env f s
                  = ({ s with clients := insertA (getFolderKey f) cid s.clients, caches := insertA (getFolderKey f) { id := s.nextCacheId, docs := [] } s.caches, nextCacheId := s.nextCacheId + 1, pending := removeKey (getFolderKey f) (addKey (getFolderKey f) s.pending) }, syncOpenDocuments supported ws cid (getFolderKey f) env.openDocs ++ [Ev.statusUpdate, Ev.log (startedMsg f)]) := by
                simp [startForFolder, hc, h2, he, hf, hs, hy]
              rw [heq]
              simp [List.count_append, List.count_cons, count_dispose_sync]
            · have heq : startForFolder supported ws env f s
                  = startFail f { s with clients := insertA (getFolderKey f) cid s.clients, caches := insertA (getFolderKey f) { id := s.nextCacheId, docs := [] } s.caches, nextCacheId := s.nextCacheId + 1, pending := addKey (getFolderKey f) s.pending } := by
                simp [startForFolder, hc, h2, he, hf, hs, hy]
              rw [heq]
              exact startFail_dispose_bound f _ d
          · have heq : startForFolder supported ws env f s
                = startFail f { s with clients := insertA (getFolderKey f) cid s.clients, pending := addKey (getFolderKey f) s.pending } := by
              simp [startForFolder, hc, h2, he, hf, hs]
            rw [heq]
            exact startFail_dispose_bound f _ d

theorem stopForFolder_ok_events (f : WorkspaceFolder) (s : MState) (cid : Nat)
    (hc : lookupA s.clients (getFolderKey f) = some cid) :
    (stopForFolder false f s).2.2
      = [Ev.log (stoppingMsg f), Ev.clientStopCall cid]
        ++ (match lookupA s.watchers (getFolderKey f) with
            | some batch => batch.map Ev.dispose
            | none => []) := by
  simp only [stopForFolder, hc, Bool.false_eq_true, if_false, cleanupWatchersSt_events]

theorem stopForFolder_dispose_bound (stopFails : Bool) (f : WorkspaceFolder)
    (s : MState) (d : Nat) :
    (watcherIds (stopForFolder stopFails f s).2.1.watchers).count d
      + ((stopForFolder stopFails f s).2.2).count (Ev.dispose d)
    ≤ (watcherIds s.watchers).count d := by
  cases hc : lookupA s.clients (getFolderKey f) with
  | none =>
    rw [stopForFolder_none_eq stopFails f s hc]
    simp
  | some cid =>
    cases stopFails with
    | true =>
      rw [stopForFolder_err_eq f s cid hc]
      simp [List.count_cons]
    | false =>
      have hst : (stopForFolder false f s).2.1.watchers
          = eraseA (getFolderKey f) s.watchers := by
        rw [(stopForFolder_ok_state f s cid hc).2]
      rw [hst, stopForFolder_ok_events f s cid hc]
      cases hw : lookupA s.watchers (getFolderKey f) with
      | some batch =>
        have he := watcherIds_eraseA_count hw d
        rw [show (match some batch with
              | some b => List.map Ev.dispose b
              | none => ([] : List Ev)) = List.map Ev.dispose batch from rfl]
        rw [List.count_append, count_dispose_map]
        have h0 : ([Ev.log (stoppingMsg f), Ev.clientStopCall cid] : List Ev).count
            (Ev.dispose d) = 0 := by simp
        rw [h0]
        omega
      | none =>
        rw [show (match (none : Option (List Nat)) with
              | some b => List.map Ev.dispose b
              | none => ([] : List Ev)) = ([] : List Ev) from rfl]
        rw [eraseA_of_lookup_none hw]
        simp [List.count_cons]

theorem stopAll_dispose_bound (fails : Nat → Bool) (s : MState) (d : Nat) :
    (watcherIds (stopAll fails s).2.1.watchers).count d
      + ((stopAll fails s).2.2).count (Ev.dispose d)
    ≤ (watcherIds s.watchers).count d := by
  unfold stopAll
  have hevs := count_dispose_stopAllLoop fails s.clients d
  rcases hl : stopAllLoop fails s.clients with ⟨o, evs⟩
  rw [hl] at hevs
  cases o with
  | err =>
    simp only [List.count_cons] at hevs ⊢
    simp [List.count_cons, hevs]
  | ok =>
    simp only [] at hevs
    simp [watcherIds, List.count_cons, List.count_append, hevs, count_dispose_disposeAll]

theorem applyOp_dispose_bound (supported : String → Bool)
    (ws : TextDocument → Option WorkspaceFolder) (op : Op) (s : MState) (d : Nat) :
    (watcherIds (applyOp supported ws op s).1.watchers).count d
      + ((applyOp supported ws op s).2).count (Ev.dispose d)
    ≤ (watcherIds s.watchers).count d
      + (match op with
         | Op.registerOp _ b => b
         | _ => ([] : List Nat)).count d := by
  cases op with
  | registerOp f b =>
    simp only [applyOp, registerWatchers, List.count_nil]
    have := watcherIds_insertA_count (getFolderKey f) b s.watchers d
    simpa using this
  | startOp f env =>
    have := startForFolder_dispose_bound supported ws env f s d
    simpa using this
  | stopOp f b =>
    have := stopForFolder_dispose_bound b f s d
    simpa using this
  | stopAllOp fails =>
    have := stopAll_dispose_bound fails s d
    simpa using this

theorem runOps_dispose_bound (supported : String → Bool)
    (ws : TextDocument → Option WorkspaceFolder) :
    ∀ (ops : List Op) (s : MState) (d : Nat),
    (watcherIds (runOps supported ws ops s).1.watchers).count d
      + ((runOps supported ws ops s).2).count (Ev.dispose d)
    ≤ (watcherIds s.watchers).count d + (opsRegisteredIds ops).count d := by
  intro ops
  induction ops with
  | nil =>
    intro s d
    simp [runOps, opsRegisteredIds]
  | cons op rest ih =>
    intro s d
    have hop := applyOp_dispose_bound supported ws op s d
    have hrest := ih (applyOp supported ws op s).1 d
    simp only [runOps, List.count_append]
    cases op with
    | registerOp f b =>
      simp only [opsRegisteredIds, List.count_append]
      simp only [] at hop
      omega
    | startOp f env =>
      simp only [opsRegisteredIds]
      simp only [List.count_nil] at hop
      omega
    | stopOp f b =>
      simp only [opsRegisteredIds]
      simp only [List.count_nil] at hop
      omega
    | stopAllOp fails =>
      simp only [opsRegisteredIds]
      simp only [List.count_nil] at hop
      omega

/-- Counterexample to Claim C5 as stated: the batch `[0]` passed to the
first `registerWatchers` call for `folderA` is overwritten by a second
`registerWatchers` call and is never disposed — not even after the folder's
client has started and stopped (the stop disposed only the current batch
`[1]`).  A registered batch can therefore be disposed zero times. -/
theorem watcher_batch_overwrite_leak :
    ((runOps (fun _ => false) (fun _ => none)
        [Op.registerOp folderA [0], Op.registerOp folderA [1],
          Op.startOp folderA envOk, Op.stopOp folderA false] initState).2).count
        (Ev.dispose 0) = 0 ∧
    lookupA ((runOps (fun _ => false) (fun _ => none)
        [Op.registerOp folderA [0], Op.registerOp folderA [1],
          Op.startOp folderA envOk, Op.stopOp folderA false] initState).1).clients
        (getFolderKey folderA) = none ∧
    Ev.clientStopCall 7 ∈ ((runOps (fun _ => false) (fun _ => none)
        [Op.registerOp folderA [0], Op.registerOp folderA [1],
          Op.startOp folderA envOk, Op.stopOp folderA false] initState).2) ∧
    ((runOps (fun _ => false) (fun _ => none)
        [Op.registerOp folderA [0], Op.registerOp folderA [1],
          Op.startOp folderA envOk, Op.stopOp folderA false] initState).2).count
        (Ev.dispose 1) = 1 := by
  refine ⟨by decide, by decide, by decide, by decide⟩

/-- Claim C5 (amended): across any sequence of `registerWatchers`,
`startForFolder`, `stopForFolder` and `stopAll` calls whose registered
disposables are pairwise distinct, every disposable is disposed at most
once; and the batch still associated with a key when that key's live client
is stopped is disposed exactly then, once per member.  (A batch replaced by
a later `registerWatchers` call for the same key is dropped without
disposal, so "exactly once" does not hold for it.) -/
theorem watcher_batch_disposal (supported : String → Bool)
    (ws : TextDocument → Option WorkspaceFolder) :
    (∀ (ops : List Op) (s : MState) (d : Nat),
      s.watchers = [] → (opsRegisteredIds ops).Nodup →
      ((runOps supported ws ops s).2).count (Ev.dispose d) ≤ 1) ∧
    (∀ (f : WorkspaceFolder) (s : MState) (cid : Nat) (batch : List Nat),
      lookupA s.clients (getFolderKey f) = some cid →
      lookupA s.watchers (getFolderKey f) = some batch → batch.Nodup →
      ∀ d ∈ batch, ((stopForFolder false f s).2.2).count (Ev.dispose d) = 1) := by
  constructor
  · intro ops s d hW hnodup
    have hb := runOps_dispose_bound supported ws ops s d
    rw [hW] at hb
    have h1 : (opsRegisteredIds ops).count d ≤ 1 :=
      List.nodup_iff_count_le_one.mp hnodup d
    simp only [watcherIds, List.count_nil] at hb
    omega
  · intro f s cid batch hc hw hnd d hd
    rw [stopForFolder_ok_events f s cid hc, hw]
    rw [show (match some batch with
          | some b => List.map Ev.dispose b
          | none => ([] : List Ev)) = List.map Ev.dispose batch from rfl]
    rw [List.count_append, count_dispose_map]
    have h0 : ([Ev.log (stoppingMsg f), Ev.clientStopCall cid] : List Ev).count
        (Ev.dispose d) = 0 := by simp
    rw [h0]
    have hle := List.nodup_iff_count_le_one.mp hnd d
    have hge : 0 < batch.count d := List.count_pos_iff.mpr hd
    omega

/-- Witness for C5 (amended) at concrete inputs: in the overwrite scenario
every disposable is disposed at most once, and stopping `folderA`'s live
client disposes each member of its current batch `[8, 9]` exactly once. -/
theorem watcher_batch_disposal_witness :
    ((runOps (fun _ => false) (fun _ => none)
        [Op.registerOp folderA [0], Op.registerOp folderA [1],
          Op.startOp folderA envOk, Op.stopOp folderA false] initState).2).count
        (Ev.dispose 0) ≤ 1 ∧
    (∀ d ∈ [8, 9],
      ((stopForFolder false folderA stateClientWatchersA).2.2).count (Ev.dispose d) = 1) :=
  ⟨(watcher_batch_disposal (fun _ => false) (fun _ => none)).1
      [Op.registerOp folderA [0], Op.registerOp folderA [1],
        Op.startOp folderA envOk, Op.stopOp folderA false] initState 0 rfl (by decide),
    (watcher_batch_disposal (fun _ => false) (fun _ => none)).2 folderA
      stateClientWatchersA 3 [8, 9]
      (by simp [stateClientWatchersA, initState, lookupA])
      (by simp [stateClientWatchersA, initState, lookupA]) (by decide)⟩

/-! Invariant preservation for the interleaving machine. -/

theorem inv_st_change (k : String) (sys : Sys) (cl' : List (String × Nat))
    (ca' : List (String × DiagCache)) (wa' : List (String × List Nat)) (nc' : Nat)
    (hnodup : (keysOf cl').Nodup) (hinv : SysInv k sys) :
    SysInv k { sys with st := { clients := cl', caches := ca', watchers := wa', pending := sys.st.pending, nextCacheId := nc' } } := by
  constructor
  · exact hinv.callsEq
  · exact hnodup
  · exact hinv.activeLe
  · exact hinv.pendIff
  · exact hinv.notYetFac
  · exact hinv.facActiveOrFin

theorem inv_set_preserve (k : String) (sys : Sys) (i : Nat) (t t' : TaskT)
    (h : sys.tasks.get? i = some t)
    (ha : (keyOfT t == k && isActiveP t.phase) = (keyOfT t' == k && isActiveP t'.phase))
    (hf : (keyOfT t == k && t.invokedFactory) = (keyOfT t' == k && t'.invokedFactory))
    (hny : keyOfT t' = k →
      (t'.phase = Phase.notStarted ∨ t'.phase = Phase.awaitElig) → t'.invokedFactory = false)
    (hfa : k ∉ sys.finished → keyOfT t' = k → t'.invokedFactory = true →
      isActiveP t'.phase = true)
    (hinv : SysInv k sys) :
    SysInv k (setTask sys i t') := by
  have hgel : sys.tasks[i]? = some t := by
    rw [← List.get?_eq_getElem?]
    exact h
  have hA : activeCnt (setTask sys i t') k = activeCnt sys k := by
    have hx := countP_set_eq (fun tt => keyOfT tt == k && isActiveP tt.phase)
      sys.tasks i t' hgel
    dsimp only at hx
    rw [ha] at hx
    exact Nat.add_right_cancel hx
  have hF : facCnt (setTask sys i t') k = facCnt sys k := by
    have hx := countP_set_eq (fun tt => keyOfT tt == k && tt.invokedFactory)
      sys.tasks i t' hgel
    dsimp only at hx
    rw [hf] at hx
    exact Nat.add_right_cancel hx
  constructor
  · rw [hF]
    exact hinv.callsEq
  · exact hinv.nodupClients
  · rw [hA]
    exact hinv.activeLe
  · rw [hA]
    exact hinv.pendIff
  · intro tt htt hk hph
    rcases List.mem_or_eq_of_mem_set htt with hold | hnew
    · exact hinv.notYetFac tt hold hk hph
    · subst hnew
      exact hny hk hph
  · rcases hinv.facActiveOrFin with ⟨hfin, hfa0⟩ | ⟨hfin, hz, hf1⟩
    · left
      refine ⟨hfin, ?_⟩
      intro tt htt hk hi
      rcases List.mem_or_eq_of_mem_set htt with hold | hnew
      · exact hfa0 tt hold hk hi
      · subst hnew
        exact hfa hfin hk hi
    · right
      refine ⟨hfin, ?_, ?_⟩
      · rw [hA]
        exact hz
      · rw [hF]
        exact hf1

theorem facCnt_le_activeCnt (k : String) (sys : Sys)
    (hfa0 : ∀ t ∈ sys.tasks, keyOfT t = k → t.invokedFactory = true →
      isActiveP t.phase = true) :
    facCnt sys k ≤ activeCnt sys k := by
  unfold facCnt activeCnt
  apply List.countP_mono_left
  intro tt htt hp
  simp only [Bool.and_eq_true, beq_iff_eq] at hp ⊢
  exact ⟨hp.1, hfa0 tt htt hp.1 hp.2⟩

theorem keyOfT_set_phase (t : TaskT) (p : Phase) :
    keyOfT { t with phase := p } = keyOfT t := rfl

theorem keyOfT_set_phase_inv (t : TaskT) (p : Phase) (b : Bool) :
    keyOfT { t with phase := p, invokedFactory := b } = keyOfT t := rfl

theorem inv_finish (k : String) (sys : Sys) (i : Nat) (t : TaskT)
    (h : sys.tasks.get? i = some t) (hact : isActiveP t.phase = true)
    (hinv : SysInv k sys) :
    SysInv k (finishStep sys i t) := by
  have hgel : sys.tasks[i]? = some t := by
    rw [← List.get?_eq_getElem?]
    exact h
  have hmem : t ∈ sys.tasks := List.get?_mem h
  have hxA := countP_set_eq (fun tt => keyOfT tt == k && isActiveP tt.phase)
    sys.tasks i ({ t with phase := Phase.done }) hgel
  have hxF := countP_set_eq (fun tt => keyOfT tt == k && tt.invokedFactory)
    sys.tasks i ({ t with phase := Phase.done }) hgel
  dsimp only at hxA hxF
  simp only [keyOfT_set_phase] at hxA hxF
  have hF : facCnt (finishStep sys i t) k = facCnt sys k :=
    Nat.add_right_cancel hxF
  by_cases hk : keyOfT t = k
  · have hcnt : (keyOfT t == k && isActiveP t.phase) = true := by
      rw [hk, hact]
      simp
    have hpos : 0 < activeCnt sys k := by
      unfold activeCnt
      exact List.countP_pos_iff.mpr ⟨t, hmem, hcnt⟩
    have hone : activeCnt sys k = 1 := le_antisymm hinv.activeLe hpos
    have hdone : (keyOfT t == k && isActiveP Phase.done) = false := by
      simp [isActiveP]
    simp only [hcnt, hdone, eq_self_iff_true, if_true, Bool.false_eq_true, if_false] at hxA
    have hA : activeCnt (finishStep sys i t) k = 0 := by
      have h1 : activeCnt (finishStep sys i t) k + 1 = activeCnt sys k + 0 := by
        simpa using hxA
      omega
    constructor
    · rw [hF]
      exact hinv.callsEq
    · exact hinv.nodupClients
    · rw [hA]
      exact Nat.zero_le 1
    · rw [hA]
      apply iff_of_false
      · show k ∉ removeKey (keyOfT t) sys.st.pending
        rw [hk]
        exact not_mem_removeKey_self k sys.st.pending
      · omega
    · intro tt htt hkk hph
      rcases List.mem_or_eq_of_mem_set htt with hold | hnew
      · exact hinv.notYetFac tt hold hkk hph
      · subst hnew
        rcases hph with h1 | h1 <;> simp at h1
    · right
      refine ⟨?_, hA, ?_⟩
      · show k ∈ addKey (keyOfT t) sys.finished
        rw [mem_addKey]
        exact Or.inl hk.symm
      · rw [hF]
        rcases hinv.facActiveOrFin with ⟨hfin, hfa0⟩ | ⟨hfin, hz, hf1⟩
        · calc facCnt sys k ≤ activeCnt sys k := facCnt_le_activeCnt k sys hfa0
            _ ≤ 1 := hinv.activeLe
        · exact hf1
  · have hcf : (keyOfT t == k) = false := by
      simp [hk]
    have hcnt : (keyOfT t == k && isActiveP t.phase) = false := by
      rw [hcf]
      simp
    have hdone : (keyOfT t == k && isActiveP Phase.done) = false := by
      rw [hcf]
      simp
    simp only [hcnt, hdone, Bool.false_eq_true, if_false] at hxA
    have hA : activeCnt (finishStep sys i t) k = activeCnt sys k := by
      have h1 : activeCnt (finishStep sys i t) k + 0 = activeCnt sys k + 0 := by
        simpa using hxA
      omega
    have hkne : k ≠ keyOfT t := fun e => hk e.symm
    constructor
    · rw [hF]
      exact hinv.callsEq
    · exact hinv.nodupClients
    · rw [hA]
      exact hinv.activeLe
    · rw [hA]
      constructor
      · intro hm
        exact hinv.pendIff.mp (mem_removeKey.mp hm).1
      · intro hone
        exact mem_removeKey.mpr ⟨hinv.pendIff.mpr hone, hkne⟩
    · intro tt htt hkk hph
      rcases List.mem_or_eq_of_mem_set htt with hold | hnew
      · exact hinv.notYetFac tt hold hkk hph
      · subst hnew
        rcases hph with h1 | h1 <;> simp at h1
    · rcases hinv.facActiveOrFin with ⟨hfin, hfa0⟩ | ⟨hfin, hz, hf1⟩
      · left
        refine ⟨?_, ?_⟩
        · show k ∉ addKey (keyOfT t) sys.finished
          rw [mem_addKey]
          rintro (he | hm)
          · exact hkne he
          · exact hfin hm
        · intro tt htt hkk hi
          rcases List.mem_or_eq_of_mem_set htt with hold | hnew
          · exact hfa0 tt hold hkk hi
          · subst hnew
            exact absurd hkk hk
      · right
        refine ⟨?_, ?_, ?_⟩
        · show k ∈ addKey (keyOfT t) sys.finished
          rw [mem_addKey]
          exact Or.inr hfin
        · rw [hA]
          exact hz
        · rw [hF]
          exact hf1

theorem inv_elig_yes (k : String) (sys : Sys) (i : Nat) (t : TaskT)
    (h : sys.tasks.get? i = some t) (hph : t.phase = Phase.awaitElig)
    (hinv : SysInv k sys) :
    SysInv k { sys with tasks := sys.tasks.set i { t with phase := Phase.awaitFactory, invokedFactory := true }, factoryCalls := sys.factoryCalls ++ [keyOfT t] } := by
  have hgel : sys.tasks[i]? = some t := by
    rw [← List.get?_eq_getElem?]
    exact h
  have hmem : t ∈ sys.tasks := List.get?_mem h
  have hxA := countP_set_eq (fun tt => keyOfT tt == k && isActiveP tt.phase)
    sys.tasks i ({ t with phase := Phase.awaitFactory, invokedFactory := true }) hgel
  have hxF := countP_set_eq (fun tt => keyOfT tt == k && tt.invokedFactory)
    sys.tasks i ({ t with phase := Phase.awaitFactory, invokedFactory := true }) hgel
  dsimp only at hxA hxF
  simp only [keyOfT_set_phase_inv, hph] at hxA hxF
  rw [show isActiveP Phase.awaitElig = true from rfl,
    show isActiveP Phase.awaitFactory = true from rfl] at hxA
  have hA : List.countP (fun tt => keyOfT tt == k && isActiveP tt.phase)
      (sys.tasks.set i { t with phase := Phase.awaitFactory, invokedFactory := true })
      = activeCnt sys k := Nat.add_right_cancel hxA
  have hAshow : activeCnt { sys with tasks := sys.tasks.set i { t with phase := Phase.awaitFactory, invokedFactory := true }, factoryCalls := sys.factoryCalls ++ [keyOfT t] } k = activeCnt sys k := hA
  have hFshow : facCnt { sys with tasks := sys.tasks.set i { t with phase := Phase.awaitFactory, invokedFactory := true }, factoryCalls := sys.factoryCalls ++ [keyOfT t] } k = List.countP (fun tt => keyOfT tt == k && tt.invokedFactory) (sys.tasks.set i { t with phase := Phase.awaitFactory, invokedFactory := true }) := rfl
  have hCshow : callsCnt { sys with tasks := sys.tasks.set i { t with phase := Phase.awaitFactory, invokedFactory := true }, factoryCalls := sys.factoryCalls ++ [keyOfT t] } k = (sys.factoryCalls ++ [keyOfT t]).count k := rfl
  by_cases hk : keyOfT t = k
  · have hinvF : t.invokedFactory = false := hinv.notYetFac t hmem hk (Or.inr hph)
    have hcf : (keyOfT t == k && t.invokedFactory) = false := by
      rw [hinvF]
      simp
    have hct : (keyOfT t == k && true) = true := by
      rw [hk]
      simp
    simp only [hcf, hct, Bool.false_eq_true, if_false, eq_self_iff_true, if_true] at hxF
    have hfc : List.countP (fun tt => keyOfT tt == k && tt.invokedFactory)
        (sys.tasks.set i { t with phase := Phase.awaitFactory, invokedFactory := true })
        = List.countP (fun tt => keyOfT tt == k && tt.invokedFactory) sys.tasks + 1 := by
      omega
    have hkc : (sys.factoryCalls ++ [keyOfT t]).count k = callsCnt sys k + 1 := by
      rw [List.count_append, List.count_singleton]
      rw [show (keyOfT t == k) = true from by rw [hk]; simp]
      rfl
    have hzero : 0 < activeCnt sys k := by
      unfold activeCnt
      refine List.countP_pos_iff.mpr ⟨t, hmem, ?_⟩
      rw [hph]
      rw [show isActiveP Phase.awaitElig = true from rfl]
      exact hct
    have hfin : k ∉ sys.finished := by
      rcases hinv.facActiveOrFin with ⟨hfin, _⟩ | ⟨_, hz, _⟩
      · exact hfin
      · omega
    constructor
    · rw [hCshow, hFshow, hkc, hfc]
      rw [show List.countP (fun tt => keyOfT tt == k && tt.invokedFactory) sys.tasks
        = facCnt sys k from rfl]
      rw [hinv.callsEq]
    · exact hinv.nodupClients
    · rw [hAshow]
      exact hinv.activeLe
    · rw [hAshow]
      exact hinv.pendIff
    · intro tt htt hkk hphh
      rcases List.mem_or_eq_of_mem_set htt with hold | hnew
      · exact hinv.notYetFac tt hold hkk hphh
      · subst hnew
        rcases hphh with h1 | h1 <;> simp at h1
    · left
      refine ⟨hfin, ?_⟩
      intro tt htt hkk hi
      rcases List.mem_or_eq_of_mem_set htt with hold | hnew
      · rcases hinv.facActiveOrFin with ⟨_, hfa0⟩ | ⟨hfin2, _, _⟩
        · exact hfa0 tt hold hkk hi
        · exact absurd hfin2 hfin
      · subst hnew
        rfl
  · have hcf : (keyOfT t == k) = false := by
      simp [hk]
    simp only [hcf, Bool.false_and, Bool.false_eq_true, if_false] at hxF
    have hxF2 : List.countP (fun tt => keyOfT tt == k && tt.invokedFactory)
        (sys.tasks.set i { t with phase := Phase.awaitFactory, invokedFactory := true })
        = List.countP (fun tt => keyOfT tt == k && tt.invokedFactory) sys.tasks := by
      omega
    have hkc : (sys.factoryCalls ++ [keyOfT t]).count k = callsCnt sys k := by
      rw [List.count_append, List.count_singleton, hcf]
      rfl
    constructor
    · rw [hCshow, hFshow, hkc, hxF2]
      rw [show List.countP (fun tt => keyOfT tt == k && tt.invokedFactory) sys.tasks
        = facCnt sys k from rfl]
      exact hinv.callsEq
    · exact hinv.nodupClients
    · rw [hAshow]
      exact hinv.activeLe
    · rw [hAshow]
      exact hinv.pendIff
    · intro tt htt hkk hphh
      rcases List.mem_or_eq_of_mem_set htt with hold | hnew
      · exact hinv.notYetFac tt hold hkk hphh
      · subst hnew
        rcases hphh with h1 | h1 <;> simp at h1
    · rcases hinv.facActiveOrFin with ⟨hfin, hfa0⟩ | ⟨hfin, hz, hf1⟩
      · left
        refine ⟨hfin, ?_⟩
        intro tt htt hkk hi
        rcases List.mem_or_eq_of_mem_set htt with hold | hnew
        · exact hfa0 tt hold hkk hi
        · subst hnew
          exact absurd hkk hk
      · right
        refine ⟨hfin, ?_, ?_⟩
        · rw [hAshow]
          exact hz
        · rw [hFshow, hxF2]
          exact hf1

theorem inv_enter_pass (k : String) (sys : Sys) (i : Nat) (t : TaskT)
    (h : sys.tasks.get? i = some t) (hph : t.phase = Phase.notStarted)
    (hp : keyOfT t ∉ sys.st.pending)
    (hent : keyOfT t = k → k ∉ sys.finished)
    (hinv : SysInv k sys) :
    SysInv k { sys with tasks := sys.tasks.set i { t with phase := Phase.awaitElig }, st := { sys.st with pending := addKey (keyOfT t) sys.st.pending } } := by
  have hgel : sys.tasks[i]? = some t := by
    rw [← List.get?_eq_getElem?]
    exact h
  have hmem : t ∈ sys.tasks := List.get?_mem h
  have hxA := countP_set_eq (fun tt => keyOfT tt == k && isActiveP tt.phase)
    sys.tasks i ({ t with phase := Phase.awaitElig }) hgel
  have hxF := countP_set_eq (fun tt => keyOfT tt == k && tt.invokedFactory)
    sys.tasks i ({ t with phase := Phase.awaitElig }) hgel
  dsimp only at hxA hxF
  simp only [keyOfT_set_phase, hph] at hxA hxF
  rw [show isActiveP Phase.notStarted = false from rfl,
    show isActiveP Phase.awaitElig = true from rfl] at hxA
  simp only [Bool.and_false, Bool.and_true, Bool.false_eq_true, if_false] at hxA
  have hF : List.countP (fun tt => keyOfT tt == k && tt.invokedFactory)
      (sys.tasks.set i { t with phase := Phase.awaitElig })
      = List.countP (fun tt => keyOfT tt == k && tt.invokedFactory) sys.tasks :=
    Nat.add_right_cancel hxF
  have hAshow : activeCnt { sys with tasks := sys.tasks.set i { t with phase := Phase.awaitElig }, st := { sys.st with pending := addKey (keyOfT t) sys.st.pending } } k = List.countP (fun tt => keyOfT tt == k && isActiveP tt.phase) (sys.tasks.set i { t with phase := Phase.awaitElig }) := rfl
  have hFshow : facCnt { sys with tasks := sys.tasks.set i { t with phase := Phase.awaitElig }, st := { sys.st with pending := addKey (keyOfT t) sys.st.pending } } k = List.countP (fun tt => keyOfT tt == k && tt.invokedFactory) (sys.tasks.set i { t with phase := Phase.awaitElig }) := rfl
  by_cases hk : keyOfT t = k
  · have hct : (keyOfT t == k) = true := by
      rw [hk]
      simp
    rw [hct] at hxA
    simp only [if_true, eq_self_iff_true] at hxA
    have hkp : k ∉ sys.st.pending := by
      rw [← hk]
      exact hp
    have hzero : activeCnt sys k = 0 := by
      have hne1 : activeCnt sys k ≠ 1 := fun he => hkp (hinv.pendIff.mpr he)
      have := hinv.activeLe
      omega
    have hA1 : List.countP (fun tt => keyOfT tt == k && isActiveP tt.phase)
        (sys.tasks.set i { t with phase := Phase.awaitElig }) = 1 := by
      unfold activeCnt at hzero
      omega
    have hfin : k ∉ sys.finished := hent hk
    constructor
    · rw [hFshow, hF]
      exact hinv.callsEq
    · exact hinv.nodupClients
    · rw [hAshow, hA1]
    · rw [hAshow, hA1]
      apply iff_of_true
      · show k ∈ addKey (keyOfT t) sys.st.pending
        rw [mem_addKey]
        exact Or.inl hk.symm
      · rfl
    · intro tt htt hkk hphh
      rcases List.mem_or_eq_of_mem_set htt with hold | hnew
      · exact hinv.notYetFac tt hold hkk hphh
      · subst hnew
        exact hinv.notYetFac t hmem (by simpa using hkk) (Or.inl hph)
    · left
      refine ⟨hfin, ?_⟩
      intro tt htt hkk hi
      rcases List.mem_or_eq_of_mem_set htt with hold | hnew
      · rcases hinv.facActiveOrFin with ⟨_, hfa0⟩ | ⟨hfin2, _, _⟩
        · exact hfa0 tt hold hkk hi
        · exact absurd hfin2 hfin
      · subst hnew
        rfl
  · have hcf : (keyOfT t == k) = false := by
      simp [hk]
    rw [hcf] at hxA
    simp only [Bool.false_and, Bool.false_eq_true, if_false] at hxA
    have hA0 : List.countP (fun tt => keyOfT tt == k && isActiveP tt.phase)
        (sys.tasks.set i { t with phase := Phase.awaitElig })
        = activeCnt sys k := by
      unfold activeCnt
      omega
    have hkne : k ≠ keyOfT t := fun e => hk e.symm
    have hpend : (k ∈ addKey (keyOfT t) sys.st.pending) ↔ k ∈ sys.st.pending := by
      rw [mem_addKey]
      constructor
      · rintro (he | hm)
        · exact absurd he hkne
        · exact hm
      · exact Or.inr
    constructor
    · rw [hFshow, hF]
      exact hinv.callsEq
    · exact hinv.nodupClients
    · rw [hAshow, hA0]
      exact hinv.activeLe
    · rw [hAshow, hA0]
      show (k ∈ addKey (keyOfT t) sys.st.pending) ↔ _
      rw [hpend]
      exact hinv.pendIff
    · intro tt htt hkk hphh
      rcases List.mem_or_eq_of_mem_set htt with hold | hnew
      · exact hinv.notYetFac tt hold hkk hphh
      · subst hnew
        exact absurd hkk hk
    · rcases hinv.facActiveOrFin with ⟨hfin, hfa0⟩ | ⟨hfin, hz, hf1⟩
      · left
        refine ⟨hfin, ?_⟩
        intro tt htt hkk hi
        rcases List.mem_or_eq_of_mem_set htt with hold | hnew
        · exact hfa0 tt hold hkk hi
        · subst hnew
          exact absurd hkk hk
      · right
        refine ⟨hfin, ?_, ?_⟩
        · rw [hAshow, hA0]
          exact hz
        · rw [hFshow, hF]
          rw [show List.countP (fun tt => keyOfT tt == k && tt.invokedFactory) sys.tasks
            = facCnt sys k from rfl]
          exact hf1

theorem step_inv (k : String) (a : Act) (sys : Sys)
    (hent : isEnterFor sys a k = true → k ∉ sys.finished)
    (hinv : SysInv k sys) :
    SysInv k (step a sys) := by
  cases a with
  | enter i =>
    cases hg : sys.tasks.get? i with
    | none =>
      simpa only [step, hg] using hinv
    | some t =>
      cases hph : t.phase with
      | notStarted =>
        simp only [step, hg, hph]
        by_cases hc : (lookupA sys.st.clients (keyOfT t)).isSome
        · simp only [hc, if_true]
          refine inv_set_preserve k sys i t _ hg ?_ rfl ?_ ?_ hinv
          · rw [hph]
            simp [keyOfT_set_phase, isActiveP]
          · intro _ hor
            rcases hor with h1 | h1 <;> simp at h1
          · intro _ hkk hi
            have hfalse := hinv.notYetFac t (List.get?_mem hg) hkk (Or.inl hph)
            rw [show ({ t with phase := Phase.done } : TaskT).invokedFactory
              = t.invokedFactory from rfl, hfalse] at hi
            simp at hi
        · simp only [hc, Bool.false_eq_true, if_false]
          by_cases hpd : keyOfT t ∈ sys.st.pending
          · simp only [hpd, if_true]
            refine inv_set_preserve k sys i t _ hg ?_ rfl ?_ ?_ hinv
            · rw [hph]
              simp [keyOfT_set_phase, isActiveP]
            · intro _ hor
              rcases hor with h1 | h1 <;> simp at h1
            · intro _ hkk hi
              have hfalse := hinv.notYetFac t (List.get?_mem hg) hkk (Or.inl hph)
              rw [show ({ t with phase := Phase.done } : TaskT).invokedFactory
                = t.invokedFactory from rfl, hfalse] at hi
              simp at hi
          · simp only [hpd, if_false]
            refine inv_enter_pass k sys i t hg hph hpd ?_ hinv
            intro hkk
            apply hent
            have hg2 : sys.tasks[i]? = some t := by
              rw [← List.get?_eq_getElem?]
              exact hg
            simp [isEnterFor, hg2, hkk]
      | awaitElig => simpa only [step, hg, hph] using hinv
      | awaitFactory => simpa only [step, hg, hph] using hinv
      | awaitStart => simpa only [step, hg, hph] using hinv
      | awaitAfter => simpa only [step, hg, hph] using hinv
      | awaitErr => simpa only [step, hg, hph] using hinv
      | done => simpa only [step, hg, hph] using hinv
  | elig i r =>
    cases hg : sys.tasks.get? i with
    | none =>
      simpa only [step, hg] using hinv
    | some t =>
      cases hph : t.phase with
      | awaitElig =>
        cases r with
        | yes =>
          simp only [step, hg, hph]
          exact inv_elig_yes k sys i t hg hph hinv
        | no =>
          simp only [step, hg, hph]
          exact inv_finish k sys i t hg (by rw [hph]; rfl) hinv
        | err =>
          simp only [step, hg, hph]
          have h1 : SysInv k (setTask sys i { t with phase := Phase.awaitErr }) := by
            refine inv_set_preserve k sys i t _ hg ?_ rfl ?_ ?_ hinv
            · rw [hph]
              simp [keyOfT_set_phase, isActiveP]
            · intro _ hor
              rcases hor with h1 | h1 <;> simp at h1
            · intro _ _ _
              rfl
          exact inv_st_change k (setTask sys i { t with phase := Phase.awaitErr })
            (eraseA (keyOfT t) sys.st.clients) sys.st.caches
            (eraseA (keyOfT t) sys.st.watchers) sys.st.nextCacheId
            (nodup_keysOf_eraseA _ hinv.nodupClients) h1
      | notStarted => simpa only [step, hg, hph] using hinv
      | awaitFactory => simpa only [step, hg, hph] using hinv
      | awaitStart => simpa only [step, hg, hph] using hinv
      | awaitAfter => simpa only [step, hg, hph] using hinv
      | awaitErr => simpa only [step, hg, hph] using hinv
      | done => simpa only [step, hg, hph] using hinv
  | factory i r =>
    cases hg : sys.tasks.get? i with
    | none =>
      simpa only [step, hg] using hinv
    | some t =>
      cases hph : t.phase with
      | awaitFactory =>
        cases r with
        | ok cid =>
          simp only [step, hg, hph]
          have h1 : SysInv k (setTask sys i { t with phase := Phase.awaitStart }) := by
            refine inv_set_preserve k sys i t _ hg ?_ rfl ?_ ?_ hinv
            · rw [hph]
              simp [keyOfT_set_phase, isActiveP]
            · intro _ hor
              rcases hor with h1 | h1 <;> simp at h1
            · intro _ _ _
              rfl
          exact inv_st_change k (setTask sys i { t with phase := Phase.awaitStart })
            (insertA (keyOfT t) cid sys.st.clients) sys.st.caches
            sys.st.watchers sys.st.nextCacheId
            (nodup_keysOf_insertA _ _ hinv.nodupClients) h1
        | null =>
          simp only [step, hg, hph]
          exact inv_finish k sys i t hg (by rw [hph]; rfl) hinv
        | err =>
          simp only [step, hg, hph]
          have h1 : SysInv k (setTask sys i { t with phase := Phase.awaitErr }) := by
            refine inv_set_preserve k sys i t _ hg ?_ rfl ?_ ?_ hinv
            · rw [hph]
              simp [keyOfT_set_phase, isActiveP]
            · intro _ hor
              rcases hor with h1 | h1 <;> simp at h1
            · intro _ _ _
              rfl
          exact inv_st_change k (setTask sys i { t with phase := Phase.awaitErr })
            (eraseA (keyOfT t) sys.st.clients) sys.st.caches
            (eraseA (keyOfT t) sys.st.watchers) sys.st.nextCacheId
            (nodup_keysOf_eraseA _ hinv.nodupClients) h1
      | notStarted => simpa only [step, hg, hph] using hinv
      | awaitElig => simpa only [step, hg, hph] using hinv
      | awaitStart => simpa only [step, hg, hph] using hinv
      | awaitAfter => simpa only [step, hg, hph] using hinv
      | awaitErr => simpa only [step, hg, hph] using hinv
      | done => simpa only [step, hg, hph] using hinv
  | started i ok =>
    cases hg : sys.tasks.get? i with
    | none =>
      simpa only [step, hg] using hinv
    | some t =>
      cases hph : t.phase with
      | awaitStart =>
        cases ok with
        | true =>
          simp only [step, hg, hph, if_true]
          have h1 : SysInv k (setTask sys i { t with phase := Phase.awaitAfter }) := by
            refine inv_set_preserve k sys i t _ hg ?_ rfl ?_ ?_ hinv
            · rw [hph]
              simp [keyOfT_set_phase, isActiveP]
            · intro _ hor
              rcases hor with h1 | h1 <;> simp at h1
            · intro _ _ _
              rfl
          exact inv_st_change k (setTask sys i { t with phase := Phase.awaitAfter })
            sys.st.clients
            (insertA (keyOfT t) { id := sys.st.nextCacheId, docs := [] } sys.st.caches)
            sys.st.watchers (sys.st.nextCacheId + 1) hinv.nodupClients h1
        | false =>
          simp only [step, hg, hph, Bool.false_eq_true, if_false]
          have h1 : SysInv k (setTask sys i { t with phase := Phase.awaitErr }) := by
            refine inv_set_preserve k sys i t _ hg ?_ rfl ?_ ?_ hinv
            · rw [hph]
              simp [keyOfT_set_phase, isActiveP]
            · intro _ hor
              rcases hor with h1 | h1 <;> simp at h1
            · intro _ _ _
              rfl
          exact inv_st_change k (setTask sys i { t with phase := Phase.awaitErr })
            (eraseA (keyOfT t) sys.st.clients) sys.st.caches
            (eraseA (keyOfT t) sys.st.watchers) sys.st.nextCacheId
            (nodup_keysOf_eraseA _ hinv.nodupClients) h1
      | notStarted => simpa only [step, hg, hph] using hinv
      | awaitElig => simpa only [step, hg, hph] using hinv
      | awaitFactory => simpa only [step, hg, hph] using hinv
      | awaitAfter => simpa only [step, hg, hph] using hinv
      | awaitErr => simpa only [step, hg, hph] using hinv
      | done => simpa only [step, hg, hph] using hinv
  | synced i ok =>
    cases hg : sys.tasks.get? i with
    | none =>
      simpa only [step, hg] using hinv
    | some t =>
      cases hph : t.phase with
      | awaitAfter =>
        cases ok with
        | true =>
          simp only [step, hg, hph, if_true]
          exact inv_finish k sys i t hg (by rw [hph]; rfl) hinv
        | false =>
          simp only [step, hg, hph, Bool.false_eq_true, if_false]
          have h1 : SysInv k (setTask sys i { t with phase := Phase.awaitErr }) := by
            refine inv_set_preserve k sys i t _ hg ?_ rfl ?_ ?_ hinv
            · rw [hph]
              simp [keyOfT_set_phase, isActiveP]
            · intro _ hor
              rcases hor with h1 | h1 <;> simp at h1
            · intro _ _ _
              rfl
          exact inv_st_change k (setTask sys i { t with phase := Phase.awaitErr })
            (eraseA (keyOfT t) sys.st.clients) sys.st.caches
            (eraseA (keyOfT t) sys.st.watchers) sys.st.nextCacheId
            (nodup_keysOf_eraseA _ hinv.nodupClients) h1
      | notStarted => simpa only [step, hg, hph] using hinv
      | awaitElig => simpa only [step, hg, hph] using hinv
      | awaitFactory => simpa only [step, hg, hph] using hinv
      | awaitStart => simpa only [step, hg, hph] using hinv
      | awaitErr => simpa only [step, hg, hph] using hinv
      | done => simpa only [step, hg, hph] using hinv
  | errored i =>
    cases hg : sys.tasks.get? i with
    | none =>
      simpa only [step, hg] using hinv
    | some t =>
      cases hph : t.phase with
      | awaitErr =>
        simp only [step, hg, hph]
        exact inv_finish k sys i t hg (by rw [hph]; rfl) hinv
      | notStarted => simpa only [step, hg, hph] using hinv
      | awaitElig => simpa only [step, hg, hph] using hinv
      | awaitFactory => simpa only [step, hg, hph] using hinv
      | awaitStart => simpa only [step, hg, hph] using hinv
      | awaitAfter => simpa only [step, hg, hph] using hinv
      | done => simpa only [step, hg, hph] using hinv

theorem initSys_inv (k : String) (folders : List WorkspaceFolder) (s0 : MState)
    (hp : k ∉ s0.pending) (hn : (keysOf s0.clients).Nodup) :
    SysInv k (initSys folders s0) := by
  have hz : ∀ (p : TaskT → Bool),
      (∀ f : WorkspaceFolder,
        p { folder := f, phase := Phase.notStarted, invokedFactory := false } = false) →
      (initTasks folders).countP p = 0 := by
    intro p hp0
    apply List.countP_eq_zero.mpr
    intro t ht
    rw [initTasks, List.mem_map] at ht
    obtain ⟨f, _, hf⟩ := ht
    rw [← hf]
    simp [hp0 f]
  constructor
  · show ([] : List String).count k = _
    rw [List.count_nil]
    symm
    exact hz _ (fun f => by simp)
  · exact hn
  · show (initTasks folders).countP _ ≤ 1
    rw [hz _ (fun f => by simp [isActiveP])]
    omega
  · show k ∈ s0.pending ↔ (initTasks folders).countP _ = 1
    rw [hz _ (fun f => by simp [isActiveP])]
    exact iff_of_false hp (by omega)
  · intro t ht _ _
    have ht2 : t ∈ initTasks folders := ht
    rw [initTasks, List.mem_map] at ht2
    obtain ⟨f, _, hf⟩ := ht2
    rw [← hf]
  · left
    refine ⟨by simp [initSys], ?_⟩
    intro t ht _ hi
    have ht2 : t ∈ initTasks folders := ht
    rw [initTasks, List.mem_map] at ht2
    obtain ⟨f, _, hf⟩ := ht2
    rw [← hf] at hi
    simp at hi

theorem runActs_inv (k : String) :
    ∀ (acts : List Act) (sys : Sys), SysInv k sys →
    concOK k sys acts = true → SysInv k (runActs acts sys) := by
  intro acts
  induction acts with
  | nil =>
    intro sys h _
    exact h
  | cons a rest ih =>
    intro sys h hok
    simp only [concOK, Bool.and_eq_true] at hok
    obtain ⟨h1, h2⟩ := hok
    refine ih (step a sys) (step_inv k a sys ?_ h) h2
    intro hE
    rw [if_pos hE] at h1
    exact of_decide_eq_true h1

theorem sysInv_conclusions (k : String) (sys : Sys) (hinv : SysInv k sys) :
    callsCnt sys k ≤ 1 ∧ clientCnt sys k ≤ 1 ∧
    (activeCnt sys k = 0 → k ∉ sys.st.pending) := by
  refine ⟨?_, ?_, ?_⟩
  · rcases hinv.facActiveOrFin with ⟨_, hfa0⟩ | ⟨_, _, hf1⟩
    · rw [hinv.callsEq]
      exact le_trans (facCnt_le_activeCnt k sys hfa0) hinv.activeLe
    · rw [hinv.callsEq]
      exact hf1
  · show sys.st.clients.countP _ ≤ 1
    exact countKeyP_le_one k hinv.nodupClients
  · intro hz hm
    have h1 := hinv.pendIff.mp hm
    omega

/-- Claim C1: (1) a `startForFolder` call entered while a live client
exists for its key, or while a start is already pending for it, completes
immediately without invoking the client factory and without mutating any
manager state; (2) the entry step sets the pending marker before any
suspension point and every path's `finally` clears it, so once no attempt
for a key is in flight the marker is gone; (3) under any interleaving of a
batch of `startForFolder` calls in which the calls for a key are concurrent
(no call entered after an attempt for that key already finished), the
client factory is invoked at most once for that key and at most one live
client entry exists for it. -/
theorem startForFolder_no_duplicate_clients :
    (∀ (sys : Sys) (i : Nat) (t : TaskT), sys.tasks.get? i = some t →
      t.phase = Phase.notStarted →
      ((lookupA sys.st.clients (keyOfT t)).isSome = true ∨ keyOfT t ∈ sys.st.pending) →
      (step (Act.enter i) sys).st = sys.st ∧
      (step (Act.enter i) sys).factoryCalls = sys.factoryCalls ∧
      (step (Act.enter i) sys).tasks = sys.tasks.set i { t with phase := Phase.done }) ∧
    (∀ (k : String) (folders : List WorkspaceFolder) (s0 : MState) (acts : List Act),
      k ∉ s0.pending → (keysOf s0.clients).Nodup →
      concOK k (initSys folders s0) acts = true →
      callsCnt (runActs acts (initSys folders s0)) k ≤ 1 ∧
      clientCnt (runActs acts (initSys folders s0)) k ≤ 1 ∧
      (activeCnt (runActs acts (initSys folders s0)) k = 0 →
        k ∉ (runActs acts (initSys folders s0)).st.pending)) := by
  constructor
  · intro sys i t hg hph hguard
    have hg2 : sys.tasks[i]? = some t := by
      rw [← List.get?_eq_getElem?]
      exact hg
    rcases hguard with hc | hpd
    · simp [step, hg, hg2, hph, hc, setTask]
    · by_cases hc : (lookupA sys.st.clients (keyOfT t)).isSome
      · simp [step, hg, hg2, hph, hc, setTask]
      · simp [step, hg, hg2, hph, hc, hpd, setTask]
  · intro k folders s0 acts hp hn hok
    exact sysInv_conclusions k _
      (runActs_inv k acts (initSys folders s0) (initSys_inv k folders s0 hp hn) hok)

/-- Witness for C1 at concrete inputs: an entry with the pending marker
already set is a pure no-op, and a schedule interleaving two concurrent
`startForFolder` calls for `folderA` (the second entered between the
first's entry and its factory resolution) invokes the factory exactly once
and leaves one live client entry. -/
theorem startForFolder_no_duplicate_clients_witness :
    ((step (Act.enter 0) (initSys [folderA] { initState with pending := [getFolderKey folderA] })).st
        = (initSys [folderA] { initState with pending := [getFolderKey folderA] }).st ∧
      (step (Act.enter 0) (initSys [folderA] { initState with pending := [getFolderKey folderA] })).factoryCalls
        = (initSys [folderA] { initState with pending := [getFolderKey folderA] }).factoryCalls ∧
      (step (Act.enter 0) (initSys [folderA] { initState with pending := [getFolderKey folderA] })).tasks
        = (initSys [folderA] { initState with pending := [getFolderKey folderA] }).tasks.set 0
            { folder := folderA, phase := Phase.done, invokedFactory := false }) ∧
    (callsCnt (runActs
        [Act.enter 0, Act.enter 1, Act.elig 0 EligRes.yes, Act.factory 0 (FactoryRes.ok 7),
          Act.started 0 true, Act.synced 0 true]
        (initSys [folderA, folderA] initState)) (getFolderKey folderA) ≤ 1 ∧
      clientCnt (runActs
        [Act.enter 0, Act.enter 1, Act.elig 0 EligRes.yes, Act.factory 0 (FactoryRes.ok 7),
          Act.started 0 true, Act.synced 0 true]
        (initSys [folderA, folderA] initState)) (getFolderKey folderA) ≤ 1 ∧
      (activeCnt (runActs
        [Act.enter 0, Act.enter 1, Act.elig 0 EligRes.yes, Act.factory 0 (FactoryRes.ok 7),
          Act.started 0 true, Act.synced 0 true]
        (initSys [folderA, folderA] initState)) (getFolderKey folderA) = 0 →
        getFolderKey folderA ∉ (runActs
          [Act.enter 0, Act.enter 1, Act.elig 0 EligRes.yes, Act.factory 0 (FactoryRes.ok 7),
            Act.started 0 true, Act.synced 0 true]
          (initSys [folderA, folderA] initState)).st.pending)) :=
  ⟨startForFolder_no_duplicate_clients.1
      (initSys [folderA] { initState with pending := [getFolderKey folderA] }) 0
      { folder := folderA, phase := Phase.notStarted, invokedFactory := false }
      rfl rfl (Or.inr (by simp [initSys, initState, keyOfT])),
    startForFolder_no_duplicate_clients.2 (getFolderKey folderA) [folderA, folderA] initState
      [Act.enter 0, Act.enter 1, Act.elig 0 EligRes.yes, Act.factory 0 (FactoryRes.ok 7),
        Act.started 0 true, Act.synced 0 true]
      (by simp [initState]) (by simp [initState, keysOf]) (by decide)⟩
